import Mathlib

/-!
StatusLed: a shallow embedding of `Src/StatusLed.c` / `Src/StatusLed.h`.

The library keeps a registry of status LEDs and advances their blink
patterns from one polling function, `StatusLed_handle`.

Conventions of the embedding.

* `StatusLed.h` selects the linked-list registry (`STATUS_LED_MAX_NUM == -1`)
  and enables `STATUS_LED_ACTIVE_STATE`, `STATUS_LED_CALLBACK`,
  `STATUS_LED_ARGS` and `STATUS_LED_ENABLE_FLAG`; these are fixed here.
  The branches of `StatusLed_remove` and `StatusLed_find` for the fixed array
  (`STATUS_LED_MAX_NUM > 0`) are embedded next to them, with the suffix
  `_fixed`, over an `ArrayStore`.
* `StatusLed.c` also consults `STATUS_LED_REPEAT`, `STATUS_LED_IO_INIT`,
  `STATUS_LED_IO_DEINIT` and `STATUS_LED_IDLE_TIME`, which `StatusLed.h` does
  not define.  They are the fields of `BuildConfig`, a parameter of every
  operation.
* A pointer to a `StatusLed` is `Option Nat` (`none` is `STATUS_LED_NULL`),
  the objects live in a heap `Nat → StatusLed`.
* One-bit bit-fields are `Bool` (`false` is 0, `true` is 1).
* `uint32_t` and `uint8_t` arithmetic is `Nat` arithmetic followed by an
  explicit `% 2 ^ 32` or `% 2 ^ 8`.
* Dereferencing a null pointer, or reading a pattern past its cycle array, is
  a `Fault`; a loop that does not end within its fuel is `Fault.outOfFuel`.
* Calls through the driver and through `onFinish` are recorded as `Event`s.
  A callback is an observable event only: it is taken not to call back into
  the library.
-/

/-! ## Data model (`StatusLed.h`) -/

/-- Build-time macros that `StatusLed.c` reads and `StatusLed.h` leaves
undefined. -/
structure BuildConfig where
  STATUS_LED_REPEAT : Bool
  STATUS_LED_IO_INIT : Bool
  STATUS_LED_IO_DEINIT : Bool
  STATUS_LED_IDLE_TIME : Nat
deriving DecidableEq, Repr

/-- Values of `StatusLed_LedState`: `StatusLed_LedState_On = 0`. -/
abbrev StatusLed_LedState_On : Bool := false

/-- Values of `StatusLed_LedState`: `StatusLed_LedState_Off = 1`. -/
abbrev StatusLed_LedState_Off : Bool := true

/-- Result codes, `StatusLed_Status`, with their numeric values. -/
abbrev StatusLed_Status_Ok : Nat := 0

/-- Result code `StatusLed_Status_NoSpace = 1`. -/
abbrev StatusLed_Status_NoSpace : Nat := 1

/-- Result code `StatusLed_Status_Null = 2`. -/
abbrev StatusLed_Status_Null : Nat := 2

/-- Result code `StatusLed_Status_NotFound = 3`. -/
abbrev StatusLed_Status_NotFound : Nat := 3

/-- The union `StatusLed_Cycle`: the struct member holds the two cycle times
`Off` and `On`, in this order. -/
structure StatusLed_Cycle where
  Off : Nat
  On : Nat
deriving DecidableEq, Repr

/-- The member `Times` of the union, as `StatusLed_handle` reads it:
`Times[State]` with the one-bit `State` as index.  The header declares `Times`
without an array bound; it is read as the two-element array that overlays the
struct, so `Times[0]` is the first member `Off` and `Times[1]` the second
member `On`. -/
def StatusLed_Cycle.Times (c : StatusLed_Cycle) (i : Bool) : Nat :=
  if i then c.On else c.Off

/-- The struct `StatusLed_Pattern`: the cycle array and the length field. -/
structure StatusLed_Pattern where
  Cycles : List StatusLed_Cycle
  Len : Nat
deriving DecidableEq, Repr

/-- The struct `StatusLed` (`struct __StatusLed`).  `Config` is the address of
the pin configuration, `onFinish` the callback pointer, `Pattern` the pattern
pointed to (`none` is `STATUS_LED_PATTERN_NULL`). -/
structure StatusLed where
  Previous : Option Nat
  Args : Nat
  onFinish : Option Nat
  Config : Nat
  Pattern : Option StatusLed_Pattern
  PatternIndex : Nat
  NextBlink : Nat
  State : Bool
  ActiveState : Bool
  Repeat : Bool
  Enabled : Bool
  Configured : Bool
deriving DecidableEq, Repr

/-- The struct `StatusLed_Driver`: which of the optional function pointers are
set.  `getTimestamp` and `writePin` are always present. -/
structure StatusLed_Driver where
  initPin : Bool
  deinitPin : Bool
deriving DecidableEq, Repr

/-- Calls that leave the library.  `writePin` and `onFinish` carry the address
of the entry they are made for. -/
inductive Event where
  | initPin (config : Nat)
  | deinitPin (config : Nat)
  | writePin (led : Nat) (config : Nat) (state : Bool)
  | onFinish (fn : Nat) (led : Nat)
deriving DecidableEq, Repr

/-- Ways in which the C code leaves defined behaviour, and fuel exhaustion. -/
inductive Fault where
  | nullDeref
  | outOfBounds
  | outOfFuel
deriving DecidableEq, Repr

/-- The private variables of `StatusLed.c` together with the heap of
`StatusLed` objects they point into. -/
structure Store where
  ledDriver : Option StatusLed_Driver
  lastLed : Option Nat
  heap : Nat → StatusLed

/-! ## `StatusLed_handle` -/

/-- The macro `__ledWritePin` with `STATUS_LED_ACTIVE_STATE` enabled: the level
written is `State ^ ActiveState`. -/
def ledWritePin (a : Nat) (led : StatusLed) : Event :=
  Event.writePin a led.Config (xor led.State led.ActiveState)

/-- Lines 86-90 of `StatusLed.c`: `if (pLed->onFinish) pLed->onFinish(pLed);`
for the entry at address `a`. -/
def finishCall (a : Nat) (led : StatusLed) : List Event :=
  match led.onFinish with
  | some fn => [Event.onFinish fn a]
  | none => []

/-- Lines 84-99 of `StatusLed.c`: after the toggle, when the new state is 0,
the pattern index is pre-incremented (as a `uint8_t`), the callback runs when
the index reached `Len`, and the index is cleared when the entry repeats. -/
def advanceIndex (cfg : BuildConfig) (a : Nat) (p : StatusLed_Pattern) (led : StatusLed) :
    StatusLed × List Event :=
  if !led.State then
    let led1 := { led with PatternIndex := (led.PatternIndex + 1) % 2 ^ 8 }
    if led1.PatternIndex ≥ p.Len then
      if !cfg.STATUS_LED_REPEAT || led1.Repeat then
        ({ led1 with PatternIndex := 0 }, finishCall a led1)
      else
        (led1, finishCall a led1)
    else
      (led1, [])
  else
    (led, [])

/-- Lines 76-99 of `StatusLed.c`: the body executed for an entry that is due. -/
def blink (cfg : BuildConfig) (timestamp a : Nat) (led : StatusLed) (nextTimestamp : Nat) :
    Except Fault (StatusLed × Nat × List Event) :=
  match led.Pattern with
  | none => .error Fault.nullDeref
  | some p =>
    match p.Cycles[led.PatternIndex]? with
    | none => .error Fault.outOfBounds
    | some c =>
      let led1 := { led with NextBlink := (timestamp + c.Times led.State) % 2 ^ 32 }
      let next1 :=
        if nextTimestamp ≤ led1.NextBlink ∧ nextTimestamp ≠ 0 then led1.NextBlink
        else nextTimestamp
      let led2 := { led1 with State := !led1.State }
      let w := ledWritePin a led2
      let r := advanceIndex cfg a p led2
      .ok (r.1, next1, w :: r.2)

/-- The condition of line 71-75: `timestamp >= NextBlink`, and, with
`STATUS_LED_REPEAT`, `PatternIndex < Pattern->Len` (evaluated only when the
first operand holds). -/
def isDue (cfg : BuildConfig) (timestamp : Nat) (led : StatusLed) : Except Fault Bool :=
  if timestamp ≥ led.NextBlink then
    if cfg.STATUS_LED_REPEAT then
      match led.Pattern with
      | none => .error Fault.nullDeref
      | some p => .ok (decide (led.PatternIndex < p.Len))
    else
      .ok true
  else
    .ok false

/-- The loop body of `StatusLed_handle` (lines 63-108) for the entry at
address `a`, in linked mode with `STATUS_LED_ENABLE_FLAG`. -/
def handleBody (cfg : BuildConfig) (timestamp a : Nat) (led : StatusLed) (nextTimestamp : Nat) :
    Except Fault (StatusLed × Nat × List Event) :=
  if led.Enabled then
    match isDue cfg timestamp led with
    | .error e => .error e
    | .ok true => blink cfg timestamp a led nextTimestamp
    | .ok false => .ok (led, nextTimestamp, [])
  else
    .ok (led, nextTimestamp, [])

/-- The `while (STATUS_LED_NULL != pLed)` loop of `StatusLed_handle`, following
`Previous`; `fuel` bounds the number of iterations. -/
def handleLoop (cfg : BuildConfig) (timestamp : Nat) :
    Nat → Option Nat → (Nat → StatusLed) → Nat → List Event →
      Except Fault ((Nat → StatusLed) × Nat × List Event)
  | _, none, heap, nextTimestamp, tr => .ok (heap, nextTimestamp, tr)
  | 0, some _, _, _, _ => .error Fault.outOfFuel
  | fuel + 1, some a, heap, nextTimestamp, tr =>
    match handleBody cfg timestamp a (heap a) nextTimestamp with
    | .error e => .error e
    | .ok (led1, next1, evs) =>
      handleLoop cfg timestamp fuel led1.Previous (Function.update heap a led1) next1 (tr ++ evs)

/-- The function `StatusLed_handle`.  `now` is the value `getTimestamp()`
returns; the result is the returned delay, the store afterwards and the calls
made. -/
def StatusLed_handle (cfg : BuildConfig) (fuel now : Nat) (s : Store) :
    Except Fault (Nat × Store × List Event) :=
  match s.ledDriver with
  | none => .ok (cfg.STATUS_LED_IDLE_TIME, s, [])
  | some _ =>
    match handleLoop cfg now fuel s.lastLed s.heap 0 [] with
    | .error e => .error e
    | .ok (heap1, nextTimestamp, tr) =>
      let r := if nextTimestamp ≠ 0 then (nextTimestamp + 2 ^ 32 - now) % 2 ^ 32
               else cfg.STATUS_LED_IDLE_TIME
      .ok (r, { s with heap := heap1 }, tr)

/-- The traversal `pLed = lastLed; while (pLed) pLed = pLed->Previous` shared by
`StatusLed_handle`, `StatusLed_find` and `StatusLed_remove`: the addresses it
visits, in order. -/
def traversal : Nat → (Nat → StatusLed) → Option Nat → Except Fault (List Nat)
  | _, _, none => .ok []
  | 0, _, some _ => .error Fault.outOfFuel
  | fuel + 1, heap, some a =>
    match traversal fuel heap (heap a).Previous with
    | .error e => .error e
    | .ok l => .ok (a :: l)

/-- A run of `StatusLed_handle` calls, one per timestamp of the list, with the
calls they make in order. -/
def pollSeq (cfg : BuildConfig) (fuel : Nat) : List Nat → Store → Except Fault (Store × List Event)
  | [], s => .ok (s, [])
  | now :: ts, s =>
    match StatusLed_handle cfg fuel now s with
    | .error e => .error e
    | .ok (_, s1, tr1) =>
      match pollSeq cfg fuel ts s1 with
      | .error e => .error e
      | .ok (s2, tr2) => .ok (s2, tr1 ++ tr2)

/-! ## Setters and registry operations -/

/-- The function `StatusLed_init`. -/
def StatusLed_init (s : Store) (driver : Option StatusLed_Driver) : Store :=
  { s with ledDriver := driver }

/-- The function `StatusLed_reset`, on the object `led` points to. -/
def StatusLed_reset (led : StatusLed) : StatusLed :=
  { led with State := StatusLed_LedState_On, NextBlink := 0 }

/-- The function `StatusLed_setPattern`, on the object `led` points to. -/
def StatusLed_setPattern (led : StatusLed) (pattern : Option StatusLed_Pattern) : StatusLed :=
  StatusLed_reset { led with Pattern := pattern }

/-- The function `StatusLed_setConfig`, on the object `led` points to. -/
def StatusLed_setConfig (led : StatusLed) (config : Nat) : StatusLed :=
  { led with Config := config }

/-- The function `StatusLed_onFinish`, on the object `led` points to. -/
def StatusLed_onFinish (led : StatusLed) (fn : Option Nat) : StatusLed :=
  { led with onFinish := fn }

/-- The function `StatusLed_setActiveState`; the enum value is stored in a
one-bit field. -/
def StatusLed_setActiveState (led : StatusLed) (state : Nat) : StatusLed :=
  { led with ActiveState := decide (state % 2 = 1) }

/-- The function `StatusLed_setEnabled`; the `uint8_t` argument is stored in a
one-bit field. -/
def StatusLed_setEnabled (led : StatusLed) (enabled : Nat) : StatusLed :=
  { led with Enabled := decide (enabled % 2 = 1) }

/-- The function `StatusLed_setRepeat`; the enum value is stored in a one-bit
field. -/
def StatusLed_setRepeat (led : StatusLed) (mode : Nat) : StatusLed :=
  { led with Repeat := decide (mode % 2 = 1) }

/-- Apply a setter to the entry at address `a` of the store. -/
def Store.onLed (s : Store) (a : Nat) (f : StatusLed → StatusLed) : Store :=
  { s with heap := Function.update s.heap a (f (s.heap a)) }

/-- The macro `__initPin`: nothing without `STATUS_LED_IO_INIT`; otherwise the
driver is dereferenced and `initPin` called when the pointer is set. -/
def initPinCall (cfg : BuildConfig) (s : Store) (config : Nat) : Except Fault (List Event) :=
  if cfg.STATUS_LED_IO_INIT then
    match s.ledDriver with
    | none => .error Fault.nullDeref
    | some d => .ok (if d.initPin then [Event.initPin config] else [])
  else
    .ok []

/-- The macro `__deinitPin`: nothing without `STATUS_LED_IO_DEINIT`; otherwise
the driver is dereferenced and `deinitPin` called when the pointer is set. -/
def deinitPinCall (cfg : BuildConfig) (s : Store) (config : Nat) : Except Fault (List Event) :=
  if cfg.STATUS_LED_IO_DEINIT then
    match s.ledDriver with
    | none => .error Fault.nullDeref
    | some d => .ok (if d.deinitPin then [Event.deinitPin config] else [])
  else
    .ok []

/-- The function `StatusLed_add` in linked mode. -/
def StatusLed_add (cfg : BuildConfig) (s : Store) (led : Option Nat) (config : Nat) :
    Except Fault (Nat × Store × List Event) :=
  match led with
  | none => .ok (StatusLed_Status_Null, s, [])
  | some a =>
    let l1 := StatusLed_setConfig
      { s.heap a with
        State := StatusLed_LedState_On, Pattern := none, PatternIndex := 0, NextBlink := 0 } config
    match initPinCall cfg s config with
    | .error e => .error e
    | .ok evs =>
      let l2 := { l1 with Previous := s.lastLed }
      let l3 := { l2 with Configured := true, Enabled := true }
      .ok (StatusLed_Status_Ok,
           { s with lastLed := some a, heap := Function.update s.heap a l3 }, evs)

/-- The assignments of lines 218-221 (and 229-232) of `StatusLed_remove`, with
`pLed` the entry at `q` and `remove` the entry at `r`:
`pLed->Previous = remove->Previous; remove->Previous = STATUS_LED_NULL;
remove->Configured = 0; remove->Enabled = 0;`. -/
def unlinkStore (s : Store) (q r : Nat) : Store :=
  let heap1 := Function.update s.heap q { s.heap q with Previous := (s.heap r).Previous }
  let heap2 := Function.update heap1 r
    { heap1 r with Previous := none, Configured := false, Enabled := false }
  { s with heap := heap2 }

/-- The block repeated at lines 215-222 and 226-233 of `StatusLed_remove`:
`pLed` is the entry at `q`. -/
def unlink (cfg : BuildConfig) (s : Store) (q : Nat) (remove : Option Nat) :
    Except Fault (Nat × Store × List Event) :=
  match remove with
  | none => .error Fault.nullDeref
  | some r =>
    match deinitPinCall cfg s (s.heap r).Config with
    | .error e => .error e
    | .ok evs => .ok (StatusLed_Status_Ok, unlinkStore s q r, evs)

/-- The `while` loop of `StatusLed_remove` in linked mode (lines 224-236). -/
def removeLoop (cfg : BuildConfig) (s : Store) (remove : Option Nat) :
    Nat → Option Nat → Except Fault (Nat × Store × List Event)
  | _, none => .ok (StatusLed_Status_NotFound, s, [])
  | 0, some _ => .error Fault.outOfFuel
  | fuel + 1, some q =>
    if remove = (s.heap q).Previous then unlink cfg s q remove
    else removeLoop cfg s remove fuel (s.heap q).Previous

/-- The function `StatusLed_remove` in linked mode. -/
def StatusLed_remove (cfg : BuildConfig) (fuel : Nat) (s : Store) (remove : Option Nat) :
    Except Fault (Nat × Store × List Event) :=
  if remove = s.lastLed then
    match s.lastLed with
    | none => .error Fault.nullDeref
    | some q => unlink cfg s q remove
  else
    removeLoop cfg s remove fuel s.lastLed

/-- The `while` loop of `StatusLed_find` in linked mode (lines 260-265). -/
def findLoop (s : Store) (config : Nat) : Nat → Option Nat → Except Fault (Option Nat)
  | _, none => .ok none
  | 0, some _ => .error Fault.outOfFuel
  | fuel + 1, some q =>
    if config = (s.heap q).Config then .ok (some q)
    else findLoop s config fuel (s.heap q).Previous

/-- The function `StatusLed_find` in linked mode.  The pin configuration is
compared by address. -/
def StatusLed_find (fuel : Nat) (s : Store) (config : Nat) : Except Fault (Option Nat) :=
  findLoop s config fuel s.lastLed

/-! ## The fixed-array registry (`STATUS_LED_MAX_NUM > 0`) -/

/-- The private variables of `StatusLed.c` when `STATUS_LED_MAX_NUM > 0`: the
driver and the array `leds`, whose length is `STATUS_LED_MAX_NUM`.  The pointer
`leds + k` is `some k` for `k` below the length; any other address is an object
outside the array. -/
structure ArrayStore where
  ledDriver : Option StatusLed_Driver
  leds : List StatusLed
deriving DecidableEq, Repr

/-- The `while (len-- > 0)` loop of `StatusLed_remove` in fixed mode (lines
240-247), with `pLed = leds + k`.  On a match the code returns the literal
`1`. -/
def removeFixedLoop (remove : Option Nat) :
    Nat → Nat → List StatusLed → Except Fault (Nat × List StatusLed)
  | 0, _, leds => .ok (StatusLed_Status_NotFound, leds)
  | len + 1, k, leds =>
    match leds[k]? with
    | none => .error Fault.outOfBounds
    | some led =>
      if remove = some k ∧ led.Configured = true then
        .ok (1, leds.set k { led with Configured := false, Enabled := false })
      else
        removeFixedLoop remove len (k + 1) leds

/-- The function `StatusLed_remove` in fixed mode: `uint8_t len =
STATUS_LED_MAX_NUM`, then the loop over the array.  This branch makes no
driver call, so the list of calls is empty. -/
def StatusLed_remove_fixed (s : ArrayStore) (remove : Option Nat) :
    Except Fault (Nat × ArrayStore × List Event) :=
  match removeFixedLoop remove (s.leds.length % 2 ^ 8) 0 s.leds with
  | .error e => .error e
  | .ok (r, leds1) => .ok (r, { s with leds := leds1 }, [])

/-- The `while (len-- > 0)` loop of `StatusLed_find` in fixed mode (lines
269-274), with `pLed = leds + k`. -/
def findFixedLoop (config : Nat) : Nat → Nat → List StatusLed → Except Fault (Option Nat)
  | 0, _, _ => .ok none
  | len + 1, k, leds =>
    match leds[k]? with
    | none => .error Fault.outOfBounds
    | some led =>
      if config = led.Config then .ok (some k)
      else findFixedLoop config len (k + 1) leds

/-- The function `StatusLed_find` in fixed mode. -/
def StatusLed_find_fixed (s : ArrayStore) (config : Nat) : Except Fault (Option Nat) :=
  findFixedLoop config (s.leds.length % 2 ^ 8) 0 s.leds

/-! ## Predicates and projections used to state the properties -/

/-- `LedChain heap p l`: following `Previous` from the pointer `p` visits exactly
the addresses of `l`, in order, and then reaches `STATUS_LED_NULL`. -/
def LedChain (heap : Nat → StatusLed) : Option Nat → List Nat → Prop
  | p, [] => p = none
  | p, a :: l => p = some a ∧ LedChain heap (heap a).Previous l

/-- An entry that `StatusLed_handle` can process: when it is enabled it has a
pattern whose length field fits a `uint8_t` and does not exceed the cycle
array, and its pattern index is in range (at most `Len` with
`STATUS_LED_REPEAT`, below `Len` without). -/
def EntryOK (cfg : BuildConfig) (led : StatusLed) : Prop :=
  led.Enabled = true →
    ∃ p, led.Pattern = some p ∧ p.Len ≤ p.Cycles.length ∧ p.Len < 2 ^ 8 ∧
      (if cfg.STATUS_LED_REPEAT then led.PatternIndex ≤ p.Len else led.PatternIndex < p.Len)

/-- The registry of the store `s` is the acyclic chain `l` of entries that
`StatusLed_handle` can process. -/
structure Registry (cfg : BuildConfig) (s : Store) (l : List Nat) : Prop where
  chain : LedChain s.heap s.lastLed l
  nodup : l.Nodup
  entries : ∀ b ∈ l, EntryOK cfg (s.heap b)

/-- The entry a call is made for, when it is made for one. -/
def Event.led : Event → Option Nat
  | .writePin a _ _ => some a
  | .onFinish _ a => some a
  | .initPin _ => none
  | .deinitPin _ => none

/-- Whether the call is a `writePin`. -/
def Event.isWrite : Event → Bool
  | .writePin _ _ _ => true
  | _ => false

/-- Whether the call is an `onFinish` callback. -/
def Event.isFinish : Event → Bool
  | .onFinish _ _ => true
  | _ => false

/-- The calls of the trace `tr` made for the entry at `a`. -/
def eventsOf (a : Nat) (tr : List Event) : List Event :=
  tr.filter (fun e => decide (e.led = some a))

/-- The `writePin` calls of the trace `tr` made for the entry at `a`. -/
def writesOf (a : Nat) (tr : List Event) : List Event :=
  (eventsOf a tr).filter Event.isWrite

/-- The `onFinish` calls of the trace `tr` made for the entry at `a`. -/
def finishesOf (a : Nat) (tr : List Event) : List Event :=
  (eventsOf a tr).filter Event.isFinish

/-- One loop iteration of `StatusLed_handle` seen from the entry at `a`: the
entry afterwards and the calls made (the entry is left as it is when the
iteration faults). -/
def stepLed (cfg : BuildConfig) (now a : Nat) (led : StatusLed) : StatusLed × List Event :=
  match handleBody cfg now a led 0 with
  | .ok (l, _, e) => (l, e)
  | .error _ => (led, [])

/-- The iterations of a run of polls seen from the entry at `a`. -/
def ledSeq (cfg : BuildConfig) (a : Nat) : List Nat → StatusLed → StatusLed × List Event
  | [], led => (led, [])
  | now :: ts, led =>
    ((ledSeq cfg a ts (stepLed cfg now a led).1).1,
     (stepLed cfg now a led).2 ++ (ledSeq cfg a ts (stepLed cfg now a led).1).2)

/-- The entry after a due iteration: deadline moved, state toggled, index
advanced. -/
def blinked (cfg : BuildConfig) (now a : Nat) (p : StatusLed_Pattern) (c : StatusLed_Cycle)
    (led : StatusLed) : StatusLed × List Event :=
  ((advanceIndex cfg a p
      { led with NextBlink := (now + c.Times led.State) % 2 ^ 32, State := !led.State }).1,
   ledWritePin a { led with NextBlink := (now + c.Times led.State) % 2 ^ 32,
                            State := !led.State } ::
     (advanceIndex cfg a p
      { led with NextBlink := (now + c.Times led.State) % 2 ^ 32, State := !led.State }).2)

/-- The heap after one scan of the chain `l` at timestamp `now`. -/
def scanHeap (cfg : BuildConfig) (now : Nat) (l : List Nat) (heap : Nat → StatusLed) :
    Nat → StatusLed :=
  fun b => if b ∈ l then (stepLed cfg now b (heap b)).1 else heap b

/-- The calls made by one scan of the chain `l` at timestamp `now`. -/
def scanEvents (cfg : BuildConfig) (now : Nat) (l : List Nat) (heap : Nat → StatusLed) :
    List Event :=
  l.flatMap (fun b => (stepLed cfg now b (heap b)).2)

/-- The heap after a run of polls over the chain `l`. -/
def runHeap (cfg : BuildConfig) (ts : List Nat) (l : List Nat) (heap : Nat → StatusLed) :
    Nat → StatusLed :=
  fun b => if b ∈ l then (ledSeq cfg b ts (heap b)).1 else heap b

/-- The calls made by a run of polls over the chain `l`. -/
def runEvents (cfg : BuildConfig) (l : List Nat) : List Nat → (Nat → StatusLed) → List Event
  | [], _ => []
  | now :: ts, heap =>
    scanEvents cfg now l heap ++ runEvents cfg l ts (scanHeap cfg now l heap)

/-- The position of an entry within its pattern, counted in toggles:
`2 * PatternIndex + State`. -/
def phase (led : StatusLed) : Nat :=
  2 * led.PatternIndex + (if led.State then 1 else 0)

/-- A one-shot entry under `STATUS_LED_REPEAT`: repeat bit clear, a well-formed
pattern `p`, and a position of at most `2 * Len` toggles. -/
structure OneShot (cfg : BuildConfig) (p : StatusLed_Pattern) (led : StatusLed) : Prop where
  rep : cfg.STATUS_LED_REPEAT = true
  pat : led.Pattern = some p
  len : p.Len ≤ p.Cycles.length
  len8 : p.Len < 2 ^ 8
  once : led.Repeat = false
  pos : phase led ≤ 2 * p.Len

/-- A repeating entry: a well-formed pattern `p`, the index below `Len`, and
either the repeat bit set or `STATUS_LED_REPEAT` not compiled in. -/
structure Looping (cfg : BuildConfig) (p : StatusLed_Pattern) (led : StatusLed) : Prop where
  pat : led.Pattern = some p
  len : p.Len ≤ p.Cycles.length
  len8 : p.Len < 2 ^ 8
  rep : cfg.STATUS_LED_REPEAT = false ∨ led.Repeat = true
  idx : led.PatternIndex < p.Len

/-- The `writePin` call of the toggle that leaves position `q`: the new state is
0 when `q` is odd and 1 when `q` is even. -/
def toggleWrite (a : Nat) (led : StatusLed) (q : Nat) : Event :=
  Event.writePin a led.Config (xor (decide (q % 2 = 0)) led.ActiveState)

/-- The time between toggle `j` and toggle `j + 1` of a repeating entry that
starts fresh: the cycles in order and, within each cycle, `Times[0]` and then
`Times[1]`. -/
def duration (p : StatusLed_Pattern) (j : Nat) : Nat :=
  (p.Cycles.getD (j / 2 % p.Len) { Off := 0, On := 0 }).Times (decide (j % 2 = 1))

/-- The sum of the first `j` durations. -/
def elapsed (p : StatusLed_Pattern) (j : Nat) : Nat :=
  ((List.range j).map (duration p)).sum

/-- The timestamps of `j` polls, the first at `t0` and each later one at the
sum of `t0` and the durations gone by. -/
def pollTimes (t0 : Nat) (p : StatusLed_Pattern) (j : Nat) : List Nat :=
  (List.range j).map (fun k => t0 + elapsed p k)

/-! ## Concrete registries -/

/-- The pattern `[(200,100),(50,50)]`: each pair is `(Times[0], Times[1])`, the
time spent in state 0 (`StatusLed_LedState_On`) and in state 1. -/
def demoPattern : StatusLed_Pattern :=
  { Cycles := [{ Off := 200, On := 100 }, { Off := 50, On := 50 }], Len := 2 }

/-- An object that is not registered: all fields zero. -/
def blankLed : StatusLed :=
  { Previous := none, Args := 0, onFinish := none, Config := 0, Pattern := none,
    PatternIndex := 0, NextBlink := 0, State := false, ActiveState := false,
    Repeat := false, Enabled := false, Configured := false }

/-- A fresh entry as `StatusLed_add` and `StatusLed_setPattern` leave it, with
`demoPattern`, pin configuration 7 and the repeat bit set. -/
def demoLed : StatusLed :=
  { Previous := none, Args := 0, onFinish := none, Config := 7, Pattern := some demoPattern,
    PatternIndex := 0, NextBlink := 0, State := StatusLed_LedState_On, ActiveState := false,
    Repeat := true, Enabled := true, Configured := true }

/-- A store with a driver installed and the single registered entry `demoLed`
at address 1. -/
def demoStore : Store :=
  { ledDriver := some { initPin := false, deinitPin := false },
    lastLed := some 1,
    heap := fun a => if a = 1 then demoLed else blankLed }

/-- A build configuration with the idle time 1000 and the given feature flags. -/
def demoConfig (rep ini dei : Bool) : BuildConfig :=
  { STATUS_LED_REPEAT := rep, STATUS_LED_IO_INIT := ini, STATUS_LED_IO_DEINIT := dei,
    STATUS_LED_IDLE_TIME := 1000 }

/-- A store with a driver installed and two registered entries: the entry at
address 1 (pin configuration 7) was added last and is the head of the chain,
the entry at address 2 (pin configuration 8) was added first. -/
def chainStore : Store :=
  { ledDriver := some { initPin := false, deinitPin := false },
    lastLed := some 1,
    heap := fun a =>
      if a = 1 then { demoLed with Previous := some 2 }
      else if a = 2 then { demoLed with Config := 8 }
      else blankLed }

/-- A store with a driver installed and the single registered entry `led` at
address 1. -/
def singleStore (led : StatusLed) : Store :=
  { ledDriver := some { initPin := false, deinitPin := false },
    lastLed := some 1,
    heap := fun a => if a = 1 then led else blankLed }

/-- A fresh one-shot entry with `demoPattern` and the callback 5. -/
def oneShotLed : StatusLed :=
  { demoLed with Repeat := false, onFinish := some 5 }

/-- The entry `demoLed` after its first toggle at timestamp 0: waiting in state
1 for the deadline 200. -/
def waitingLed : StatusLed :=
  { demoLed with NextBlink := 200, State := StatusLed_LedState_Off }

/-- A store with a driver installed and nothing registered. -/
def emptyStore : Store :=
  { ledDriver := some { initPin := false, deinitPin := false },
    lastLed := none,
    heap := fun _ => blankLed }

/-- A fixed-array store (`STATUS_LED_MAX_NUM = 2`) with a driver installed: slot
0 holds the registered entry `demoLed` (pin configuration 7), slot 1 is free. -/
def fixedStore : ArrayStore :=
  { ledDriver := some { initPin := false, deinitPin := false },
    leds := [demoLed, blankLed] }

/-- The entry that `StatusLed_add` with pin configuration 7 makes of `blankLed`:
enabled, configured, due at once, no pattern yet. -/
def addedLed : StatusLed :=
  { blankLed with Config := 7, Configured := true, Enabled := true }

/-- The store after `StatusLed_add` of the entry at address 1 with pin
configuration 7 to `emptyStore`. -/
def addedStore : Store :=
  { emptyStore with lastLed := some 1, heap := Function.update emptyStore.heap 1 addedLed }

/-- A one-shot entry that has completed `demoPattern`: `PatternIndex = Len = 2`,
state 0, waiting at the deadline 400. -/
def frozenLed : StatusLed :=
  { oneShotLed with PatternIndex := 2, NextBlink := 400 }

/-- A pattern of three cycles. -/
def longPattern : StatusLed_Pattern :=
  { Cycles := [{ Off := 10, On := 10 }, { Off := 20, On := 20 }, { Off := 30, On := 30 }],
    Len := 3 }

/-- A pattern of one cycle. -/
def shortPattern : StatusLed_Pattern :=
  { Cycles := [{ Off := 500, On := 500 }], Len := 1 }

/-- An entry in the middle of `longPattern`: it has played two of the three
cycles, `PatternIndex = 2`, state 0. -/
def midLed : StatusLed :=
  { demoLed with Pattern := some longPattern, PatternIndex := 2, NextBlink := 60 }

/-- The store that a successful `StatusLed_add(led, config)` leaves, with `led`
the entry at address `a`. -/
def addStore (s : Store) (a config : Nat) : Store :=
  { s with
    lastLed := some a,
    heap := Function.update s.heap a
      { s.heap a with
        State := StatusLed_LedState_On, Pattern := none, PatternIndex := 0, NextBlink := 0,
        Config := config, Previous := s.lastLed, Configured := true, Enabled := true } }

/-- A fixed-array store (`STATUS_LED_MAX_NUM = 2`) with a driver installed and
both slots registered, each with the pin configuration 7. -/
def twinStore : ArrayStore :=
  { ledDriver := some { initPin := false, deinitPin := false },
    leds := [demoLed, demoLed] }

/-! ## Basic facts about one loop iteration -/

theorem advanceIndex_frame (cfg : BuildConfig) (a : Nat) (p : StatusLed_Pattern) (led : StatusLed) :
    (advanceIndex cfg a p led).1.Previous = led.Previous ∧
    (advanceIndex cfg a p led).1.Pattern = led.Pattern ∧
    (advanceIndex cfg a p led).1.Enabled = led.Enabled ∧
    (advanceIndex cfg a p led).1.Repeat = led.Repeat ∧
    (advanceIndex cfg a p led).1.onFinish = led.onFinish ∧
    (advanceIndex cfg a p led).1.Config = led.Config ∧
    (advanceIndex cfg a p led).1.ActiveState = led.ActiveState ∧
    (advanceIndex cfg a p led).1.State = led.State ∧
    (advanceIndex cfg a p led).1.NextBlink = led.NextBlink ∧
    (advanceIndex cfg a p led).1.Configured = led.Configured ∧
    (advanceIndex cfg a p led).1.Args = led.Args := by
  simp only [advanceIndex]
  split_ifs <;> simp

theorem handleBody_disabled (cfg : BuildConfig) (now a : Nat) (led : StatusLed) (n : Nat)
    (h : led.Enabled = false) : handleBody cfg now a led n = .ok (led, n, []) := by
  simp [handleBody, h]

theorem handleBody_early (cfg : BuildConfig) (now a : Nat) (led : StatusLed) (n : Nat)
    (h : now < led.NextBlink) : handleBody cfg now a led n = .ok (led, n, []) := by
  have h1 : ¬ now ≥ led.NextBlink := by omega
  cases hE : led.Enabled <;> simp [handleBody, isDue, hE, h1]

theorem handleBody_frozen (cfg : BuildConfig) (now a : Nat) (led : StatusLed) (n : Nat)
    (p : StatusLed_Pattern) (hR : cfg.STATUS_LED_REPEAT = true) (hp : led.Pattern = some p)
    (h : p.Len ≤ led.PatternIndex) : handleBody cfg now a led n = .ok (led, n, []) := by
  have h1 : ¬ led.PatternIndex < p.Len := by omega
  cases hE : led.Enabled <;> by_cases hd : now ≥ led.NextBlink <;>
    simp [handleBody, isDue, hE, hd, hR, hp, h1]

theorem handleBody_due (cfg : BuildConfig) (now a : Nat) (led : StatusLed) (n : Nat)
    (p : StatusLed_Pattern) (c : StatusLed_Cycle) (hE : led.Enabled = true)
    (hd : led.NextBlink ≤ now) (hp : led.Pattern = some p)
    (hi : cfg.STATUS_LED_REPEAT = true → led.PatternIndex < p.Len)
    (hc : p.Cycles[led.PatternIndex]? = some c) :
    handleBody cfg now a led n =
      .ok ((advanceIndex cfg a p
              { led with NextBlink := (now + c.Times led.State) % 2 ^ 32,
                         State := !led.State }).1,
           (if n ≤ (now + c.Times led.State) % 2 ^ 32 ∧ n ≠ 0
              then (now + c.Times led.State) % 2 ^ 32 else n),
           ledWritePin a { led with NextBlink := (now + c.Times led.State) % 2 ^ 32,
                                    State := !led.State } ::
             (advanceIndex cfg a p
              { led with NextBlink := (now + c.Times led.State) % 2 ^ 32,
                         State := !led.State }).2) := by
  have h1 : now ≥ led.NextBlink := hd
  cases hR : cfg.STATUS_LED_REPEAT
  · simp [handleBody, isDue, hE, h1, hR, hp, blink, hc]
  · simp [handleBody, isDue, hE, h1, hR, hp, hi hR, blink, hc]

theorem stepLed_disabled (cfg : BuildConfig) (now a : Nat) (led : StatusLed)
    (h : led.Enabled = false) : stepLed cfg now a led = (led, []) := by
  simp [stepLed, handleBody_disabled cfg now a led 0 h]

theorem stepLed_early (cfg : BuildConfig) (now a : Nat) (led : StatusLed)
    (h : now < led.NextBlink) : stepLed cfg now a led = (led, []) := by
  simp [stepLed, handleBody_early cfg now a led 0 h]

theorem stepLed_frozen (cfg : BuildConfig) (now a : Nat) (led : StatusLed)
    (p : StatusLed_Pattern) (hR : cfg.STATUS_LED_REPEAT = true) (hp : led.Pattern = some p)
    (h : p.Len ≤ led.PatternIndex) : stepLed cfg now a led = (led, []) := by
  simp [stepLed, handleBody_frozen cfg now a led 0 p hR hp h]

theorem stepLed_due (cfg : BuildConfig) (now a : Nat) (led : StatusLed)
    (p : StatusLed_Pattern) (c : StatusLed_Cycle) (hE : led.Enabled = true)
    (hd : led.NextBlink ≤ now) (hp : led.Pattern = some p)
    (hi : cfg.STATUS_LED_REPEAT = true → led.PatternIndex < p.Len)
    (hc : p.Cycles[led.PatternIndex]? = some c) :
    stepLed cfg now a led = blinked cfg now a p c led := by
  simp [stepLed, handleBody_due cfg now a led 0 p c hE hd hp hi hc, blinked]

/-- Every iteration either leaves the entry alone and makes no call, or is a
due iteration. -/
theorem stepLed_cases (cfg : BuildConfig) (now a : Nat) (led : StatusLed) :
    stepLed cfg now a led = (led, []) ∨
    ∃ p c, led.Enabled = true ∧ led.NextBlink ≤ now ∧ led.Pattern = some p ∧
      (cfg.STATUS_LED_REPEAT = true → led.PatternIndex < p.Len) ∧
      p.Cycles[led.PatternIndex]? = some c ∧
      stepLed cfg now a led = blinked cfg now a p c led := by
  cases hE : led.Enabled
  · exact Or.inl (stepLed_disabled cfg now a led hE)
  by_cases hd : now < led.NextBlink
  · exact Or.inl (stepLed_early cfg now a led hd)
  have hd1 : led.NextBlink ≤ now := by omega
  cases hp : led.Pattern with
  | none =>
    left
    cases hR : cfg.STATUS_LED_REPEAT <;>
      simp [stepLed, handleBody, isDue, hE, hd1, hR, hp, blink]
  | some p =>
    by_cases hi : cfg.STATUS_LED_REPEAT = true → led.PatternIndex < p.Len
    · cases hc : p.Cycles[led.PatternIndex]? with
      | none =>
        left
        cases hR : cfg.STATUS_LED_REPEAT
        · simp [stepLed, handleBody, isDue, hE, hd1, hR, hp, blink, hc]
        · simp [stepLed, handleBody, isDue, hE, hd1, hR, hp, hi hR, blink, hc]
      | some c =>
        right
        exact ⟨p, c, rfl, hd1, rfl, hi, hc, stepLed_due cfg now a led p c hE hd1 hp hi hc⟩
    · left
      push_neg at hi
      exact stepLed_frozen cfg now a led p hi.1 hp hi.2

theorem blinked_frame (cfg : BuildConfig) (now a : Nat) (p : StatusLed_Pattern)
    (c : StatusLed_Cycle) (led : StatusLed) :
    (blinked cfg now a p c led).1.Previous = led.Previous ∧
    (blinked cfg now a p c led).1.Pattern = led.Pattern ∧
    (blinked cfg now a p c led).1.Enabled = led.Enabled ∧
    (blinked cfg now a p c led).1.Repeat = led.Repeat ∧
    (blinked cfg now a p c led).1.onFinish = led.onFinish ∧
    (blinked cfg now a p c led).1.Config = led.Config ∧
    (blinked cfg now a p c led).1.ActiveState = led.ActiveState ∧
    (blinked cfg now a p c led).1.State = (!led.State) ∧
    (blinked cfg now a p c led).1.NextBlink = (now + c.Times led.State) % 2 ^ 32 ∧
    (blinked cfg now a p c led).1.Configured = led.Configured ∧
    (blinked cfg now a p c led).1.Args = led.Args := by
  have h := advanceIndex_frame cfg a p
    { led with NextBlink := (now + c.Times led.State) % 2 ^ 32, State := !led.State }
  simpa [blinked] using h

/-- An iteration changes none of the fields that the setters own. -/
theorem stepLed_frame (cfg : BuildConfig) (now a : Nat) (led : StatusLed) :
    (stepLed cfg now a led).1.Previous = led.Previous ∧
    (stepLed cfg now a led).1.Pattern = led.Pattern ∧
    (stepLed cfg now a led).1.Enabled = led.Enabled ∧
    (stepLed cfg now a led).1.Repeat = led.Repeat ∧
    (stepLed cfg now a led).1.onFinish = led.onFinish ∧
    (stepLed cfg now a led).1.Config = led.Config ∧
    (stepLed cfg now a led).1.ActiveState = led.ActiveState ∧
    (stepLed cfg now a led).1.Configured = led.Configured ∧
    (stepLed cfg now a led).1.Args = led.Args := by
  rcases stepLed_cases cfg now a led with h | ⟨p, c, -, -, -, -, -, h⟩
  · simp [h]
  · rw [h]
    obtain ⟨h1, h2, h3, h4, h5, h6, h7, -, -, h10, h11⟩ := blinked_frame cfg now a p c led
    exact ⟨h1, h2, h3, h4, h5, h6, h7, h10, h11⟩

theorem advanceIndex_led (cfg : BuildConfig) (a : Nat) (p : StatusLed_Pattern) (led : StatusLed) :
    ∀ e ∈ (advanceIndex cfg a p led).2, e.led = some a := by
  simp only [advanceIndex]
  split_ifs <;> cases h : led.onFinish <;> simp [Event.led, finishCall, h]

/-- Every call made in an iteration for the entry at `a` is tagged with `a`. -/
theorem stepLed_led (cfg : BuildConfig) (now a : Nat) (led : StatusLed) :
    ∀ e ∈ (stepLed cfg now a led).2, e.led = some a := by
  rcases stepLed_cases cfg now a led with h | ⟨p, c, -, -, -, -, -, h⟩
  · simp [h]
  · rw [h]
    intro e he
    simp only [blinked, List.mem_cons] at he
    rcases he with rfl | he
    · simp [ledWritePin, Event.led]
    · exact advanceIndex_led cfg a p _ e he

/-- With an entry that can be processed the loop body does not fault, leaves
`nextTimestamp` at 0, and agrees with `stepLed`. -/
theorem handleBody_eq_stepLed (cfg : BuildConfig) (now a : Nat) (led : StatusLed)
    (h : EntryOK cfg led) :
    handleBody cfg now a led 0 = .ok ((stepLed cfg now a led).1, 0, (stepLed cfg now a led).2) := by
  cases hE : led.Enabled
  · rw [stepLed_disabled cfg now a led hE, handleBody_disabled cfg now a led 0 hE]
  by_cases hd : now < led.NextBlink
  · rw [stepLed_early cfg now a led hd, handleBody_early cfg now a led 0 hd]
  have hd1 : led.NextBlink ≤ now := by omega
  obtain ⟨p, hp, hlen, -, hidx⟩ := h hE
  by_cases hi : led.PatternIndex < p.Len
  · have hlt : led.PatternIndex < p.Cycles.length := by omega
    have hc : p.Cycles[led.PatternIndex]? = some (p.Cycles[led.PatternIndex]) :=
      List.getElem?_eq_getElem hlt
    rw [stepLed_due cfg now a led p _ hE hd1 hp (fun _ => hi) hc,
      handleBody_due cfg now a led 0 p _ hE hd1 hp (fun _ => hi) hc]
    simp [blinked]
  · cases hR : cfg.STATUS_LED_REPEAT
    · simp [hR] at hidx
      omega
    · have hge : p.Len ≤ led.PatternIndex := by omega
      rw [stepLed_frozen cfg now a led p hR hp hge, handleBody_frozen cfg now a led 0 p hR hp hge]

/-- An iteration keeps the entry processable. -/
theorem stepLed_entryOK (cfg : BuildConfig) (now a : Nat) (led : StatusLed)
    (h : EntryOK cfg led) : EntryOK cfg (stepLed cfg now a led).1 := by
  rcases stepLed_cases cfg now a led with h1 | ⟨p, c, hE, -, hp, hi, hc, h1⟩
  · rw [h1]; exact h
  · rw [h1]
    intro _
    obtain ⟨p1, hp1, hlen, h8, hidx⟩ := h hE
    have hpp : p1 = p := by rw [hp] at hp1; exact (Option.some.inj hp1).symm
    subst hpp
    refine ⟨p1, ?_, hlen, h8, ?_⟩
    · rw [(blinked_frame cfg now a p1 c led).2.1]; exact hp
    · have hlt : led.PatternIndex < p1.Len := by
        cases hR : cfg.STATUS_LED_REPEAT
        · simpa [hR] using hidx
        · exact hi hR
      have hmod : (led.PatternIndex + 1) % 2 ^ 8 = led.PatternIndex + 1 :=
        Nat.mod_eq_of_lt (by omega)
      simp only [blinked, advanceIndex]
      split_ifs <;> simp_all <;> omega

/-! ## The scan loop over a well-formed registry -/

theorem ledChain_congr (heap heap1 : Nat → StatusLed) (l : List Nat) :
    ∀ p, (∀ b ∈ l, (heap1 b).Previous = (heap b).Previous) →
      LedChain heap p l → LedChain heap1 p l := by
  induction l with
  | nil => intro p _ h; exact h
  | cons a l ih =>
    intro p hb h
    refine ⟨h.1, ?_⟩
    rw [hb a (List.mem_cons_self a l)]
    exact ih _ (fun b hbl => hb b (List.mem_cons_of_mem a hbl)) h.2

theorem ledChain_unique (heap : Nat → StatusLed) (l1 : List Nat) :
    ∀ l2 p, LedChain heap p l1 → LedChain heap p l2 → l1 = l2 := by
  induction l1 with
  | nil =>
    intro l2 p h1 h2
    cases l2 with
    | nil => rfl
    | cons b l2 =>
      have h3 : p = none := h1
      have h4 : p = some b := h2.1
      rw [h3] at h4
      cases h4
  | cons a l1 ih =>
    intro l2 p h1 h2
    cases l2 with
    | nil =>
      have h3 : p = none := h2
      have h4 : p = some a := h1.1
      rw [h3] at h4
      cases h4
    | cons b l2 =>
      have h3 : p = some a := h1.1
      have h4 : p = some b := h2.1
      rw [h3] at h4
      have hab : a = b := Option.some.inj h4
      subst hab
      rw [ih l2 _ h1.2 h2.2]

theorem scanHeap_nil (cfg : BuildConfig) (now : Nat) (heap : Nat → StatusLed) :
    scanHeap cfg now [] heap = heap := by
  funext b
  simp [scanHeap]

theorem scanHeap_cons (cfg : BuildConfig) (now a : Nat) (l : List Nat) (heap : Nat → StatusLed)
    (ha : a ∉ l) :
    scanHeap cfg now l (Function.update heap a (stepLed cfg now a (heap a)).1) =
      scanHeap cfg now (a :: l) heap := by
  funext b
  by_cases hba : b = a
  · subst hba
    simp [scanHeap, ha]
  · by_cases hbl : b ∈ l
    · simp [scanHeap, hbl, hba, Function.update_noteq hba]
    · simp [scanHeap, hbl, hba, Function.update_noteq hba]

theorem scanEvents_cons (cfg : BuildConfig) (now a : Nat) (l : List Nat) (heap : Nat → StatusLed)
    (ha : a ∉ l) :
    scanEvents cfg now l (Function.update heap a (stepLed cfg now a (heap a)).1) =
      scanEvents cfg now l heap := by
  unfold scanEvents
  induction l with
  | nil => rfl
  | cons b l ih =>
    have hba : b ≠ a := fun h => ha (h ▸ List.mem_cons_self b l)
    have hal : a ∉ l := fun h => ha (List.mem_cons_of_mem b h)
    rw [List.flatMap_cons, List.flatMap_cons, ih hal, Function.update_noteq hba]

/-- On an acyclic chain of processable entries the loop of `StatusLed_handle`
ends within `l.length` iterations, never assigns `nextTimestamp`, and has
processed every entry of the chain exactly once. -/
theorem handleLoop_chain (cfg : BuildConfig) (now : Nat) (l : List Nat) :
    ∀ (fuel : Nat) (p : Option Nat) (heap : Nat → StatusLed) (tr : List Event),
      LedChain heap p l → l.Nodup → (∀ b ∈ l, EntryOK cfg (heap b)) → l.length ≤ fuel →
      handleLoop cfg now fuel p heap 0 tr =
        .ok (scanHeap cfg now l heap, 0, tr ++ scanEvents cfg now l heap) := by
  induction l with
  | nil =>
    intro fuel p heap tr hc _ _ _
    have hp : p = none := hc
    subst hp
    cases fuel <;> simp [handleLoop, scanHeap_nil, scanEvents]
  | cons a l ih =>
    intro fuel p heap tr hc hnd hok hfuel
    have hp : p = some a := hc.1
    subst hp
    obtain ⟨ha, hnd1⟩ := List.nodup_cons.mp hnd
    cases fuel with
    | zero => simp at hfuel
    | succ f =>
      have hbody := handleBody_eq_stepLed cfg now a (heap a) (hok a (List.mem_cons_self a l))
      have hprev := (stepLed_frame cfg now a (heap a)).1
      have hne : ∀ b ∈ l, b ≠ a := fun b hb h => ha (h ▸ hb)
      have hchain : LedChain (Function.update heap a (stepLed cfg now a (heap a)).1)
          (heap a).Previous l :=
        ledChain_congr heap _ l _
          (fun b hb => by rw [Function.update_noteq (hne b hb)]) hc.2
      have hok1 : ∀ b ∈ l, EntryOK cfg
          ((Function.update heap a (stepLed cfg now a (heap a)).1) b) := by
        intro b hb
        rw [Function.update_noteq (hne b hb)]
        exact hok b (List.mem_cons_of_mem a hb)
      have hlen : l.length ≤ f := by simpa using hfuel
      have hrec := ih f (heap a).Previous _ (tr ++ (stepLed cfg now a (heap a)).2)
        hchain hnd1 hok1 hlen
      simp only [handleLoop, hbody, hprev, hrec, scanHeap_cons cfg now a l heap ha,
        scanEvents_cons cfg now a l heap ha]
      simp [scanEvents, List.flatMap_cons]

/-- The function `StatusLed_handle` on a well-formed registry: it returns the
idle time, every entry of the chain has made one iteration, and the calls are
those of the iterations in chain order. -/
theorem handle_registry (cfg : BuildConfig) (fuel now : Nat) (s : Store) (l : List Nat)
    (d : StatusLed_Driver) (hd : s.ledDriver = some d) (h : Registry cfg s l)
    (hf : l.length ≤ fuel) :
    StatusLed_handle cfg fuel now s =
      .ok (cfg.STATUS_LED_IDLE_TIME, { s with heap := scanHeap cfg now l s.heap },
           scanEvents cfg now l s.heap) := by
  have hloop := handleLoop_chain cfg now l fuel s.lastLed s.heap [] h.chain h.nodup h.entries hf
  simp [StatusLed_handle, hd, hloop]

theorem registry_scan (cfg : BuildConfig) (now : Nat) (s : Store) (l : List Nat)
    (h : Registry cfg s l) :
    Registry cfg { s with heap := scanHeap cfg now l s.heap } l := by
  refine ⟨?_, h.nodup, ?_⟩
  · refine ledChain_congr s.heap _ l _ ?_ h.chain
    intro b hb
    simp [scanHeap, hb, (stepLed_frame cfg now b (s.heap b)).1]
  · intro b hb
    simp only [scanHeap, hb, if_true]
    exact stepLed_entryOK cfg now b (s.heap b) (h.entries b hb)

theorem eventsOf_tagged (a b : Nat) (evs : List Event) (h : ∀ e ∈ evs, e.led = some b) :
    eventsOf a evs = if a = b then evs else [] := by
  unfold eventsOf
  by_cases hab : a = b
  · subst hab
    simp only [if_true]
    exact List.filter_eq_self.mpr (fun e he => by simp [h e he])
  · simp only [hab, if_false]
    refine List.filter_eq_nil_iff.mpr (fun e he => ?_)
    rw [h e he]
    simp only [decide_eq_true_eq]
    intro hc
    exact hab (Option.some.inj hc).symm

theorem eventsOf_append (a : Nat) (t1 t2 : List Event) :
    eventsOf a (t1 ++ t2) = eventsOf a t1 ++ eventsOf a t2 := by
  simp [eventsOf]

theorem eventsOf_scanEvents (cfg : BuildConfig) (now a : Nat) (heap : Nat → StatusLed)
    (l : List Nat) (hnd : l.Nodup) :
    eventsOf a (scanEvents cfg now l heap) =
      if a ∈ l then (stepLed cfg now a (heap a)).2 else [] := by
  induction l with
  | nil => simp [scanEvents, eventsOf]
  | cons b l ih =>
    obtain ⟨hb, hnd1⟩ := List.nodup_cons.mp hnd
    have hcons : scanEvents cfg now (b :: l) heap =
        (stepLed cfg now b (heap b)).2 ++ scanEvents cfg now l heap := by
      simp [scanEvents, List.flatMap_cons]
    rw [hcons, eventsOf_append, ih hnd1,
      eventsOf_tagged a b _ (stepLed_led cfg now b (heap b))]
    by_cases hab : a = b
    · subst hab
      simp [hb]
    · by_cases hal : a ∈ l
      · simp [hab, hal]
      · simp [hab, hal]

theorem runHeap_cons (cfg : BuildConfig) (now : Nat) (ts l : List Nat) (heap : Nat → StatusLed) :
    runHeap cfg ts l (scanHeap cfg now l heap) = runHeap cfg (now :: ts) l heap := by
  funext b
  by_cases hb : b ∈ l
  · simp [runHeap, scanHeap, hb, ledSeq]
  · simp [runHeap, scanHeap, hb]

/-- A run of polls on a well-formed registry does not fault, and every entry of
the chain has made the iterations of `ledSeq`. -/
theorem pollSeq_registry (cfg : BuildConfig) (fuel : Nat) (l : List Nat) (d : StatusLed_Driver)
    (hf : l.length ≤ fuel) :
    ∀ (ts : List Nat) (s : Store), s.ledDriver = some d → Registry cfg s l →
      pollSeq cfg fuel ts s =
        .ok ({ s with heap := runHeap cfg ts l s.heap }, runEvents cfg l ts s.heap) := by
  intro ts
  induction ts with
  | nil =>
    intro s _ _
    have hh : runHeap cfg [] l s.heap = s.heap := by
      funext b
      simp [runHeap, ledSeq]
    simp [pollSeq, runEvents, hh]
  | cons now ts ih =>
    intro s hd h
    have h1 := handle_registry cfg fuel now s l d hd h hf
    have h2 := ih { s with heap := scanHeap cfg now l s.heap } hd (registry_scan cfg now s l h)
    simp only [pollSeq, h1, h2, runEvents]
    simp [runHeap_cons]

theorem registry_run (cfg : BuildConfig) (l : List Nat) :
    ∀ (ts : List Nat) (s : Store), Registry cfg s l →
      Registry cfg { s with heap := runHeap cfg ts l s.heap } l := by
  intro ts
  induction ts with
  | nil =>
    intro s h
    have hh : runHeap cfg [] l s.heap = s.heap := by
      funext b
      simp [runHeap, ledSeq]
    rw [hh]
    exact h
  | cons now ts ih =>
    intro s h
    have h2 := ih { s with heap := scanHeap cfg now l s.heap } (registry_scan cfg now s l h)
    simpa [runHeap_cons] using h2

theorem eventsOf_runEvents (cfg : BuildConfig) (a : Nat) (l : List Nat) (hnd : l.Nodup)
    (ha : a ∈ l) :
    ∀ (ts : List Nat) (heap : Nat → StatusLed),
      eventsOf a (runEvents cfg l ts heap) = (ledSeq cfg a ts (heap a)).2 := by
  intro ts
  induction ts with
  | nil => intro heap; simp [runEvents, ledSeq, eventsOf]
  | cons now ts ih =>
    intro heap
    rw [runEvents, eventsOf_append, eventsOf_scanEvents cfg now a heap l hnd, ih]
    simp [ha, ledSeq, scanHeap]

/-! ## Properties of `StatusLed_handle` -/

theorem demoStore_registry (cfg : BuildConfig) : Registry cfg demoStore [1] := by
  refine ⟨⟨rfl, rfl⟩, by simp, ?_⟩
  intro b hb
  have hb1 : b = 1 := by simpa using hb
  subst hb1
  intro _
  refine ⟨demoPattern, rfl, by decide, by decide, ?_⟩
  cases cfg.STATUS_LED_REPEAT <;> simp [demoStore, demoLed, demoPattern]

theorem demo_first_poll (cfg : BuildConfig) :
    stepLed cfg 0 1 demoLed =
      ({ demoLed with NextBlink := 200, State := StatusLed_LedState_Off },
       [Event.writePin 1 7 true]) := by
  rw [stepLed_due cfg 0 1 demoLed demoPattern { Off := 200, On := 100 } rfl (by decide) rfl
    (fun _ => by decide) rfl]
  simp [blinked, advanceIndex, demoLed, StatusLed_Cycle.Times, ledWritePin]

theorem demo_second_poll (cfg : BuildConfig) :
    stepLed cfg 200 1 { demoLed with NextBlink := 200, State := StatusLed_LedState_Off } =
      ({ demoLed with NextBlink := 300, PatternIndex := 1 }, [Event.writePin 1 7 false]) := by
  rw [stepLed_due cfg 200 1 { demoLed with NextBlink := 200, State := StatusLed_LedState_Off }
    demoPattern { Off := 200, On := 100 } rfl (by decide) rfl (fun _ => by decide) rfl]
  simp [blinked, advanceIndex, demoLed, demoPattern, StatusLed_Cycle.Times, ledWritePin]

/-- C1, evaluated at the scenario the claim names (pattern `[(200,100),(50,50)]`,
repeat on, fresh entry, driver installed): the poll at `now = 0` assigns the
deadline 200 and the poll at `now = 200` assigns the deadline 300, yet with every
build configuration both calls return `STATUS_LED_IDLE_TIME`, where the claim
requires 200 and then 100. -/
theorem C1_handle_returns_idle_time (cfg : BuildConfig) (fuel : Nat) :
    ∃ s1 tr1 s2 tr2,
      StatusLed_handle cfg (fuel + 1) 0 demoStore = .ok (cfg.STATUS_LED_IDLE_TIME, s1, tr1) ∧
      (s1.heap 1).NextBlink = 200 ∧
      StatusLed_handle cfg (fuel + 1) 200 s1 = .ok (cfg.STATUS_LED_IDLE_TIME, s2, tr2) ∧
      (s2.heap 1).NextBlink = 300 ∧
      ¬ (cfg.STATUS_LED_IDLE_TIME = 200 ∧ cfg.STATUS_LED_IDLE_TIME = 100) := by
  have h1 := handle_registry cfg (fuel + 1) 0 demoStore [1] _ rfl (demoStore_registry cfg)
    (by simp)
  have hr := registry_scan cfg 0 demoStore [1] (demoStore_registry cfg)
  have h2 := handle_registry cfg (fuel + 1) 200 _ [1] _ rfl hr (by simp)
  refine ⟨_, _, _, _, h1, ?_, h2, ?_, by omega⟩
  · simp [scanHeap, demoStore, demo_first_poll]
  · simp [scanHeap, demoStore, demo_first_poll, demo_second_poll]

/-- C2, evaluated at a fresh entry with pattern `[(200,100),(50,50)]` and an idle
time of 1000: the poll at `now = 0` returns the delay 1000, and afterwards the
entry, enabled and with its pattern index in range, has the deadline 200, which
is earlier than `now + 1000`.  A caller waiting the returned delay is late. -/
theorem C2_returned_delay_overshoots (rep ini dei : Bool) (fuel : Nat) :
    ∃ s1 tr,
      StatusLed_handle (demoConfig rep ini dei) (fuel + 1) 0 demoStore = .ok (1000, s1, tr) ∧
      (s1.heap 1).Enabled = true ∧
      (s1.heap 1).Pattern = some demoPattern ∧
      (s1.heap 1).PatternIndex < demoPattern.Len ∧
      (s1.heap 1).NextBlink = 200 ∧
      (s1.heap 1).NextBlink < 0 + 1000 := by
  have h1 := handle_registry (demoConfig rep ini dei) (fuel + 1) 0 demoStore [1] _ rfl
    (demoStore_registry _) (by simp)
  have hh : scanHeap (demoConfig rep ini dei) 0 [1] demoStore.heap 1 =
      { demoLed with NextBlink := 200, State := StatusLed_LedState_Off } := by
    simp [scanHeap, demoStore, demo_first_poll]
  refine ⟨_, _, h1, ?_, ?_, ?_, ?_, ?_⟩ <;> (dsimp only; rw [hh]) <;>
    simp [demoLed, demoPattern]

theorem advanceIndex_writes (cfg : BuildConfig) (a : Nat) (p : StatusLed_Pattern)
    (led : StatusLed) : (advanceIndex cfg a p led).2.filter Event.isWrite = [] := by
  simp only [advanceIndex]
  split_ifs <;> cases h : led.onFinish <;> simp [Event.isWrite, finishCall, h]

theorem scan_entry (cfg : BuildConfig) (now a : Nat) (l : List Nat) (heap : Nat → StatusLed)
    (ha : a ∈ l) : scanHeap cfg now l heap a = (stepLed cfg now a (heap a)).1 := by
  simp [scanHeap, ha]

/-- C3: in a well-formed registry with the driver installed, for a registered,
enabled entry with a pattern, `PatternIndex < Len` and `now >= NextBlink`, one
call of `StatusLed_handle` returns, sets `NextBlink` to
`now + Cycles[PatternIndex].Times[State]` (in `uint32_t` arithmetic, cursor and
state as before the call), flips `State`, and makes exactly one `writePin` call
for the entry, with the entry's `Config` and the level `(new State) ^ ActiveState`. -/
theorem C3_due_step (cfg : BuildConfig) (fuel now : Nat) (s : Store) (l : List Nat)
    (d : StatusLed_Driver) (a : Nat) (p : StatusLed_Pattern)
    (hd : s.ledDriver = some d) (h : Registry cfg s l) (hf : l.length ≤ fuel) (ha : a ∈ l)
    (hE : (s.heap a).Enabled = true) (hp : (s.heap a).Pattern = some p)
    (hi : (s.heap a).PatternIndex < p.Len) (hdue : (s.heap a).NextBlink ≤ now) :
    ∃ r s1 tr c,
      StatusLed_handle cfg fuel now s = .ok (r, s1, tr) ∧
      p.Cycles[(s.heap a).PatternIndex]? = some c ∧
      (s1.heap a).NextBlink = (now + c.Times (s.heap a).State) % 2 ^ 32 ∧
      (s1.heap a).State = (!(s.heap a).State) ∧
      writesOf a tr =
        [Event.writePin a (s.heap a).Config (xor (!(s.heap a).State) (s.heap a).ActiveState)] := by
  have h1 := handle_registry cfg fuel now s l d hd h hf
  obtain ⟨p1, hp1, hlen, -, -⟩ := h.entries a ha hE
  have hpp : p1 = p := by rw [hp] at hp1; exact (Option.some.inj hp1).symm
  subst hpp
  have hlt : (s.heap a).PatternIndex < p1.Cycles.length := by omega
  have hc : p1.Cycles[(s.heap a).PatternIndex]? = some (p1.Cycles[(s.heap a).PatternIndex]) :=
    List.getElem?_eq_getElem hlt
  have hstep := stepLed_due cfg now a (s.heap a) p1 _ hE hdue hp (fun _ => hi) hc
  have hfr := blinked_frame cfg now a p1 (p1.Cycles[(s.heap a).PatternIndex]) (s.heap a)
  refine ⟨_, _, _, _, h1, hc, ?_, ?_, ?_⟩
  · simp only [scan_entry cfg now a l s.heap ha, hstep]
    exact hfr.2.2.2.2.2.2.2.2.1
  · simp only [scan_entry cfg now a l s.heap ha, hstep]
    exact hfr.2.2.2.2.2.2.2.1
  · simp only [writesOf, eventsOf_scanEvents cfg now a s.heap l h.nodup, ha, if_true, hstep]
    simp [blinked, List.filter_cons, ledWritePin, Event.isWrite, advanceIndex_writes]

theorem pollSeq_no_driver (cfg : BuildConfig) (fuel : Nat) :
    ∀ (ts : List Nat) (s : Store), s.ledDriver = none → pollSeq cfg fuel ts s = .ok (s, []) := by
  intro ts
  induction ts with
  | nil => intro s _; rfl
  | cons now ts ih =>
    intro s hd
    simp [pollSeq, StatusLed_handle, hd, ih s hd]

/-- C6: in a well-formed registry, for a registered entry with `now < NextBlink`,
a call of `StatusLed_handle` at `now` returns, leaves every field of the entry
unchanged and makes no `writePin` and no `onFinish` call for it. -/
theorem C6_idle_safety (cfg : BuildConfig) (fuel now : Nat) (s : Store) (l : List Nat) (a : Nat)
    (h : Registry cfg s l) (hf : l.length ≤ fuel) (ha : a ∈ l)
    (hnow : now < (s.heap a).NextBlink) :
    ∃ r s1 tr,
      StatusLed_handle cfg fuel now s = .ok (r, s1, tr) ∧
      s1.heap a = s.heap a ∧ eventsOf a tr = [] := by
  cases hd : s.ledDriver with
  | none =>
    exact ⟨cfg.STATUS_LED_IDLE_TIME, s, [], by simp [StatusLed_handle, hd], rfl, rfl⟩
  | some d =>
    have h1 := handle_registry cfg fuel now s l d hd h hf
    refine ⟨_, _, _, h1, ?_, ?_⟩
    · simp [scan_entry cfg now a l s.heap ha, stepLed_early cfg now a (s.heap a) hnow]
    · simp [eventsOf_scanEvents cfg now a s.heap l h.nodup, ha,
        stepLed_early cfg now a (s.heap a) hnow]

theorem ledSeq_disabled (cfg : BuildConfig) (a : Nat) (led : StatusLed)
    (h : led.Enabled = false) : ∀ ts : List Nat, ledSeq cfg a ts led = (led, []) := by
  intro ts
  induction ts with
  | nil => rfl
  | cons now ts ih => simp [ledSeq, stepLed_disabled cfg now a led h, ih]

/-- C7: after `StatusLed_setEnabled(led, 0)` on a registered entry, every run of
`StatusLed_handle` calls at arbitrary timestamps returns, leaves the entry as
the disabling left it (so `State`, `PatternIndex` and `NextBlink` keep the values
they had) and makes no `writePin` and no `onFinish` call for it. -/
theorem C7_disabled_inert (cfg : BuildConfig) (fuel : Nat) (s : Store) (l : List Nat) (a : Nat)
    (ts : List Nat) (hc : LedChain s.heap s.lastLed l) (hnd : l.Nodup)
    (hok : ∀ b ∈ l, b ≠ a → EntryOK cfg (s.heap b)) (hf : l.length ≤ fuel) (ha : a ∈ l) :
    ∃ s2 tr,
      pollSeq cfg fuel ts (s.onLed a (fun led => StatusLed_setEnabled led 0)) = .ok (s2, tr) ∧
      s2.heap a = StatusLed_setEnabled (s.heap a) 0 ∧
      (s2.heap a).State = (s.heap a).State ∧
      (s2.heap a).PatternIndex = (s.heap a).PatternIndex ∧
      (s2.heap a).NextBlink = (s.heap a).NextBlink ∧
      eventsOf a tr = [] := by
  have hself : (s.onLed a (fun led => StatusLed_setEnabled led 0)).heap a =
      StatusLed_setEnabled (s.heap a) 0 := by
    simp [Store.onLed]
  have hdis : (StatusLed_setEnabled (s.heap a) 0).Enabled = false := by
    simp [StatusLed_setEnabled]
  cases hd : s.ledDriver with
  | none =>
    have h1 := pollSeq_no_driver cfg fuel ts (s.onLed a (fun led => StatusLed_setEnabled led 0)) hd
    exact ⟨_, _, h1, hself, by rw [hself]; rfl, by rw [hself]; rfl, by rw [hself]; rfl, rfl⟩
  | some d =>
    have hreg : Registry cfg (s.onLed a (fun led => StatusLed_setEnabled led 0)) l := by
      refine ⟨?_, hnd, ?_⟩
      · refine ledChain_congr s.heap _ l _ ?_ hc
        intro b _
        by_cases hba : b = a
        · subst hba
          simp [Store.onLed, StatusLed_setEnabled]
        · simp [Store.onLed, Function.update_noteq hba]
      · intro b hb
        by_cases hba : b = a
        · subst hba
          intro hE
          rw [hself, hdis] at hE
          cases hE
        · simpa [Store.onLed, Function.update_noteq hba] using hok b hb hba
    have h1 := pollSeq_registry cfg fuel l d hf ts
      (s.onLed a (fun led => StatusLed_setEnabled led 0)) hd hreg
    have hrun : runHeap cfg ts l (s.onLed a (fun led => StatusLed_setEnabled led 0)).heap a =
        StatusLed_setEnabled (s.heap a) 0 := by
      simp only [runHeap, ha, if_true, hself]
      rw [ledSeq_disabled cfg a _ hdis ts]
    refine ⟨_, _, h1, hrun, ?_, ?_, ?_, ?_⟩
    · show (runHeap cfg ts l (s.onLed a fun led => StatusLed_setEnabled led 0).heap a).State = _
      rw [hrun]; rfl
    · show (runHeap cfg ts l
        (s.onLed a fun led => StatusLed_setEnabled led 0).heap a).PatternIndex = _
      rw [hrun]; rfl
    · show (runHeap cfg ts l (s.onLed a fun led => StatusLed_setEnabled led 0).heap a).NextBlink = _
      rw [hrun]; rfl
    · rw [eventsOf_runEvents cfg a l hnd ha ts, hself, ledSeq_disabled cfg a _ hdis ts]

/-! ## One due iteration, counted in toggles -/

/-- A due iteration of an entry whose index is in range: the call made is the
`writePin` of the toggled level, followed by the callback exactly when the
toggle completes the pattern; the position advances by one, wrapping to 0 at
the end of the pattern when the entry repeats. -/
theorem blinked_phase (cfg : BuildConfig) (now a : Nat) (p : StatusLed_Pattern)
    (c : StatusLed_Cycle) (led : StatusLed) (hi : led.PatternIndex < p.Len)
    (h8 : p.Len < 2 ^ 8) :
    (blinked cfg now a p c led).2 =
      Event.writePin a led.Config (xor (!led.State) led.ActiveState) ::
        (if phase led + 1 = 2 * p.Len then finishCall a led else []) ∧
    phase (blinked cfg now a p c led).1 =
      (if phase led + 1 = 2 * p.Len ∧ (!cfg.STATUS_LED_REPEAT || led.Repeat) = true then 0
       else phase led + 1) := by
  have hmod : (led.PatternIndex + 1) % 2 ^ 8 = led.PatternIndex + 1 :=
    Nat.mod_eq_of_lt (by omega)
  have hmod1 : (led.PatternIndex + 1) % 256 = led.PatternIndex + 1 := hmod
  cases hS : led.State
  · have hne : ¬ (2 * led.PatternIndex + 0 + 1 = 2 * p.Len) := by omega
    simp [blinked, advanceIndex, ledWritePin, phase, hS, hne]
  · by_cases hlast : led.PatternIndex + 1 = p.Len
    · have h1 : p.Len ≤ led.PatternIndex + 1 := by omega
      have h2 : 2 * led.PatternIndex + 1 + 1 = 2 * p.Len := by omega
      by_cases hrep : (!cfg.STATUS_LED_REPEAT || led.Repeat) = true
      · simp [blinked, advanceIndex, ledWritePin, phase, hS, hmod1, h1, h2, hrep, finishCall]
      · simp [blinked, advanceIndex, ledWritePin, phase, hS, hmod1, h1, h2, finishCall]
        simp at hrep
        simp [hrep]
        omega
    · have h1 : ¬ p.Len ≤ led.PatternIndex + 1 := by omega
      have h2 : ¬ (2 * led.PatternIndex + 1 + 1 = 2 * p.Len) := by omega
      simp [blinked, advanceIndex, ledWritePin, phase, hS, hmod1, h1, h2]
      omega

/-! ## One-shot entries -/

theorem phase_lt_of_index_lt (led : StatusLed) (L : Nat) (h : led.PatternIndex < L) :
    phase led < 2 * L := by
  cases hS : led.State <;> simp [phase, hS] <;> omega

theorem index_le_of_phase_le (led : StatusLed) (L : Nat) (h : phase led ≤ 2 * L) :
    led.PatternIndex ≤ L := by
  cases hS : led.State <;> simp [phase, hS] at h <;> omega

theorem oneShot_step (cfg : BuildConfig) (now a : Nat) (p : StatusLed_Pattern) (led : StatusLed)
    (h : OneShot cfg p led) :
    stepLed cfg now a led = (led, []) ∨
    (phase led < 2 * p.Len ∧ OneShot cfg p (stepLed cfg now a led).1 ∧
      phase (stepLed cfg now a led).1 = phase led + 1 ∧
      (stepLed cfg now a led).1.onFinish = led.onFinish ∧
      (stepLed cfg now a led).2 =
        Event.writePin a led.Config (xor (!led.State) led.ActiveState) ::
          (if phase led + 1 = 2 * p.Len then finishCall a led else [])) := by
  rcases stepLed_cases cfg now a led with h1 | ⟨p1, c, -, -, hp, hi, -, h1⟩
  · exact Or.inl h1
  · right
    have hpp : p1 = p := by rw [h.pat] at hp; exact (Option.some.inj hp).symm
    subst hpp
    have hidx := hi h.rep
    have hlt := phase_lt_of_index_lt led p1.Len hidx
    obtain ⟨hev, hph⟩ := blinked_phase cfg now a p1 c led hidx h.len8
    have hfr := blinked_frame cfg now a p1 c led
    have hph1 : phase (blinked cfg now a p1 c led).1 = phase led + 1 := by
      rw [hph]
      simp [h.rep, h.once]
    rw [h1]
    refine ⟨hlt, ⟨h.rep, ?_, h.len, h.len8, ?_, ?_⟩, hph1, hfr.2.2.2.2.1, hev⟩
    · rw [hfr.2.1]; exact h.pat
    · rw [hfr.2.2.2.1]; exact h.once
    · rw [hph1]; omega

/-- A run of iterations of a one-shot entry: `n` toggles that do not take the
position past `2 * Len`, and the callback right after the toggle that reaches
`2 * Len`, if the run contains it. -/
theorem oneShot_run (cfg : BuildConfig) (a : Nat) (p : StatusLed_Pattern) :
    ∀ (ts : List Nat) (led : StatusLed), OneShot cfg p led →
      ∃ ws : List Event,
        phase led + ws.length ≤ 2 * p.Len ∧ (∀ e ∈ ws, e.isWrite = true) ∧
        OneShot cfg p (ledSeq cfg a ts led).1 ∧
        phase (ledSeq cfg a ts led).1 = phase led + ws.length ∧
        (ledSeq cfg a ts led).1.onFinish = led.onFinish ∧
        (ledSeq cfg a ts led).2 =
          ws ++ (if 0 < ws.length ∧ phase led + ws.length = 2 * p.Len
                 then finishCall a led else []) := by
  intro ts
  induction ts with
  | nil =>
    intro led h
    exact ⟨[], by simpa using h.pos, by simp, h, by simp [ledSeq], rfl, by simp [ledSeq]⟩
  | cons now ts ih =>
    intro led h
    rcases oneShot_step cfg now a p led h with h1 | ⟨hlt, hos, hph, hcb, hev⟩
    · obtain ⟨ws, hle, hw, hos1, hph1, hcb1, hev1⟩ := ih led h
      refine ⟨ws, hle, hw, ?_, ?_, ?_, ?_⟩ <;> simp only [ledSeq, h1]
      · exact hos1
      · exact hph1
      · exact hcb1
      · simpa using hev1
    · obtain ⟨ws, hle, hw, hos1, hph1, hcb1, hev1⟩ := ih _ hos
      have hfc : finishCall a (stepLed cfg now a led).1 = finishCall a led := by
        simp [finishCall, hcb]
      refine ⟨Event.writePin a led.Config (xor (!led.State) led.ActiveState) :: ws,
        ?_, ?_, ?_, ?_, ?_, ?_⟩
      · simp only [List.length_cons]; omega
      · intro e he
        rcases List.mem_cons.mp he with rfl | he
        · rfl
        · exact hw e he
      · simpa only [ledSeq] using hos1
      · simp only [ledSeq, hph1, List.length_cons]; omega
      · simp only [ledSeq, hcb1, hcb]
      · simp only [ledSeq, hev, hev1, hfc, hph, List.length_cons]
        by_cases hend : phase led + 1 = 2 * p.Len
        · have hz : ws.length = 0 := by omega
          have hnil : ws = [] := List.length_eq_zero.mp hz
          subst hnil
          simp [hend]
        · by_cases hz : ws.length = 0
          · have hnil : ws = [] := List.length_eq_zero.mp hz
            subst hnil
            simp [hend]
          · have hpos : 0 < ws.length := Nat.pos_of_ne_zero hz
            have heq : (phase led + 1 + ws.length = 2 * p.Len) ↔
                (phase led + (ws.length + 1) = 2 * p.Len) := by omega
            simp [hend, hpos, heq]

theorem ledSeq_frozen (cfg : BuildConfig) (a : Nat) (p : StatusLed_Pattern) (led : StatusLed)
    (hR : cfg.STATUS_LED_REPEAT = true) (hp : led.Pattern = some p)
    (h : p.Len ≤ led.PatternIndex) : ∀ ts : List Nat, ledSeq cfg a ts led = (led, []) := by
  intro ts
  induction ts with
  | nil => rfl
  | cons now ts ih => simp [ledSeq, stepLed_frozen cfg now a led p hR hp h, ih]

/-- A run of polls on a well-formed registry, seen from one entry of the
chain: the run returns, keeps the registry well-formed, and the entry has made
the iterations of `ledSeq` for the timestamps that were scanned (all of them
with a driver installed, none without). -/
theorem pollSeq_entry (cfg : BuildConfig) (fuel : Nat) (s : Store) (l : List Nat) (a : Nat)
    (ts : List Nat) (h : Registry cfg s l) (hf : l.length ≤ fuel) (ha : a ∈ l) :
    ∃ s1 tr ts1,
      pollSeq cfg fuel ts s = .ok (s1, tr) ∧
      s1.heap a = (ledSeq cfg a ts1 (s.heap a)).1 ∧
      eventsOf a tr = (ledSeq cfg a ts1 (s.heap a)).2 ∧
      Registry cfg s1 l := by
  cases hd : s.ledDriver with
  | none =>
    exact ⟨s, [], [], pollSeq_no_driver cfg fuel ts s hd, rfl, rfl, h⟩
  | some d =>
    refine ⟨_, _, ts, pollSeq_registry cfg fuel l d hf ts s hd h, ?_, ?_, registry_run cfg l ts s h⟩
    · simp [runHeap, ha]
    · exact eventsOf_runEvents cfg a l h.nodup ha ts s.heap

theorem run_entry (cfg : BuildConfig) (a : Nat) (ts l : List Nat) (heap : Nat → StatusLed)
    (ha : a ∈ l) : runHeap cfg ts l heap a = (ledSeq cfg a ts (heap a)).1 := by
  simp [runHeap, ha]

theorem finishCall_writes (a : Nat) (led : StatusLed) :
    (finishCall a led).filter Event.isWrite = [] := by
  cases h : led.onFinish <;> simp [finishCall, h, Event.isWrite]

theorem index_lt_of_phase_lt (led : StatusLed) (L : Nat) (h : phase led < 2 * L) :
    led.PatternIndex < L := by
  cases hS : led.State <;> simp [phase, hS] at h <;> omega

theorem not_state_eq_phase (led : StatusLed) :
    (!led.State) = decide (phase led % 2 = 0) := by
  cases hS : led.State <;> simp [phase, hS]
  omega

theorem looping_step (cfg : BuildConfig) (now a : Nat) (p : StatusLed_Pattern) (led : StatusLed)
    (h : Looping cfg p led) :
    stepLed cfg now a led = (led, []) ∨
    (Looping cfg p (stepLed cfg now a led).1 ∧
      phase (stepLed cfg now a led).1 = (if phase led + 1 = 2 * p.Len then 0 else phase led + 1) ∧
      (stepLed cfg now a led).1.onFinish = led.onFinish ∧
      (stepLed cfg now a led).1.Config = led.Config ∧
      (stepLed cfg now a led).1.ActiveState = led.ActiveState ∧
      (stepLed cfg now a led).2 =
        toggleWrite a led (phase led) ::
          (if phase led + 1 = 2 * p.Len then finishCall a led else [])) := by
  rcases stepLed_cases cfg now a led with h1 | ⟨p1, c, -, -, hp, -, -, h1⟩
  · exact Or.inl h1
  · right
    have hpp : p1 = p := by rw [h.pat] at hp; exact (Option.some.inj hp).symm
    subst hpp
    have hlt := phase_lt_of_index_lt led p1.Len h.idx
    obtain ⟨hev, hph⟩ := blinked_phase cfg now a p1 c led h.idx h.len8
    have hfr := blinked_frame cfg now a p1 c led
    have hrep : (!cfg.STATUS_LED_REPEAT || led.Repeat) = true := by
      rcases h.rep with hr | hr <;> simp [hr]
    have hph1 : phase (blinked cfg now a p1 c led).1 =
        (if phase led + 1 = 2 * p1.Len then 0 else phase led + 1) := by
      rw [hph]
      simp [hrep]
    have hlt1 : phase (blinked cfg now a p1 c led).1 < 2 * p1.Len := by
      rw [hph1]
      split_ifs <;> omega
    rw [h1]
    refine ⟨⟨?_, h.len, h.len8, ?_, index_lt_of_phase_lt _ _ hlt1⟩, hph1, hfr.2.2.2.2.1,
      hfr.2.2.2.2.2.1, hfr.2.2.2.2.2.2.1, ?_⟩
    · rw [hfr.2.1]; exact h.pat
    · rw [hfr.2.2.2.1]; exact h.rep
    · rw [hev, toggleWrite, not_state_eq_phase]

theorem finishCall_finishes (a : Nat) (led : StatusLed) :
    (finishCall a led).filter Event.isFinish = finishCall a led := by
  cases h : led.onFinish <;> simp [finishCall, h, Event.isFinish]

theorem toggleWrite_shift (a : Nat) (led led1 : StatusLed) (hc : led1.Config = led.Config)
    (hA : led1.ActiveState = led.ActiveState) (q1 q : Nat) (hq : q1 % 2 = q % 2) :
    toggleWrite a led1 q1 = toggleWrite a led q := by
  simp [toggleWrite, hc, hA, hq]

/-- A run of iterations of a repeating entry in closed form: after `n` toggles
the position is `(phase + n) % (2 * Len)`, the `k`-th `writePin` call is the one
of position `phase + k`, and the callback has run `(phase + n) / (2 * Len)`
times. -/
theorem looping_run (cfg : BuildConfig) (a : Nat) (p : StatusLed_Pattern) :
    ∀ (ts : List Nat) (led : StatusLed), Looping cfg p led →
      ∃ n : Nat,
        Looping cfg p (ledSeq cfg a ts led).1 ∧
        phase (ledSeq cfg a ts led).1 = (phase led + n) % (2 * p.Len) ∧
        (ledSeq cfg a ts led).1.onFinish = led.onFinish ∧
        (ledSeq cfg a ts led).1.Config = led.Config ∧
        (ledSeq cfg a ts led).1.ActiveState = led.ActiveState ∧
        (ledSeq cfg a ts led).2.filter Event.isWrite =
          (List.range n).map (fun k => toggleWrite a led (phase led + k)) ∧
        (ledSeq cfg a ts led).2.filter Event.isFinish =
          (List.replicate ((phase led + n) / (2 * p.Len)) (finishCall a led)).flatten := by
  intro ts
  induction ts with
  | nil =>
    intro led h
    have hlt := phase_lt_of_index_lt led p.Len h.idx
    refine ⟨0, h, ?_, rfl, rfl, rfl, by simp [ledSeq], ?_⟩
    · simp [ledSeq, Nat.mod_eq_of_lt hlt]
    · simp [ledSeq, Nat.div_eq_of_lt hlt]
  | cons now ts ih =>
    intro led h
    have hlt := phase_lt_of_index_lt led p.Len h.idx
    rcases looping_step cfg now a p led h with h1 | ⟨hl1, hph, hcb, hcf, hac, hev⟩
    · obtain ⟨n, hl, hp1, hcb1, hcf1, hac1, hw1, hf1⟩ := ih led h
      refine ⟨n, ?_, ?_, ?_, ?_, ?_, ?_, ?_⟩ <;> simp only [ledSeq, h1]
      · exact hl
      · exact hp1
      · exact hcb1
      · exact hcf1
      · exact hac1
      · simpa using hw1
      · simpa using hf1
    · obtain ⟨n, hl, hp1, hcb1, hcf1, hac1, hw1, hf1⟩ := ih _ hl1
      have hfc : finishCall a (stepLed cfg now a led).1 = finishCall a led := by
        simp [finishCall, hcb]
      have hpar : ∀ k, ((if phase led + 1 = 2 * p.Len then 0 else phase led + 1) + k) % 2 =
          (phase led + (k + 1)) % 2 := by
        intro k
        split_ifs with hend <;> omega
      have hwr : ∀ k, toggleWrite a (stepLed cfg now a led).1
            (phase (stepLed cfg now a led).1 + k) =
          toggleWrite a led (phase led + (k + 1)) := by
        intro k
        rw [hph]
        exact toggleWrite_shift a led _ hcf hac _ _ (hpar k)
      refine ⟨n + 1, ?_, ?_, ?_, ?_, ?_, ?_, ?_⟩
      · simpa only [ledSeq] using hl
      · simp only [ledSeq, hp1, hph]
        split_ifs with hend
        · have : phase led + (n + 1) = 2 * p.Len + n := by omega
          rw [this, Nat.add_mod_left, Nat.zero_add]
        · congr 1
          omega
      · simp only [ledSeq, hcb1, hcb]
      · simp only [ledSeq, hcf1, hcf]
      · simp only [ledSeq, hac1, hac]
      · simp only [ledSeq, hev, List.filter_append, hw1, List.range_succ_eq_map, List.map_cons,
          List.map_map]
        have hfw : (toggleWrite a led (phase led) ::
            (if phase led + 1 = 2 * p.Len then finishCall a led else [])).filter Event.isWrite =
            [toggleWrite a led (phase led)] := by
          split_ifs <;> simp [toggleWrite, Event.isWrite, finishCall_writes]
        rw [hfw]
        simp only [List.singleton_append, Nat.add_zero, List.cons.injEq, true_and]
        apply List.map_congr_left
        intro k _
        simp only [Function.comp]
        exact hwr k
      · simp only [ledSeq, hev, List.filter_append, hf1, hfc, hph]
        by_cases hend : phase led + 1 = 2 * p.Len
        · have h2 : phase led + (n + 1) = 2 * p.Len + n := by omega
          have hpos : 0 < 2 * p.Len := by omega
          simp only [hend, if_true, h2, Nat.add_div_left n hpos, List.replicate_succ,
            List.flatten_cons, Nat.zero_add]
          simp [toggleWrite, Event.isFinish, finishCall_finishes]
        · have h2 : phase led + 1 + n = phase led + (n + 1) := by omega
          simp only [hend, if_false, h2]
          simp [toggleWrite, Event.isFinish]

theorem phase_inv (led : StatusLed) (q : Nat) (h : phase led = q) :
    led.State = decide (q % 2 = 1) ∧ led.PatternIndex = q / 2 := by
  subst h
  cases hS : led.State <;> simp [phase, hS]
  all_goals omega

theorem writesOf_eq (a : Nat) (tr : List Event) :
    writesOf a tr = (eventsOf a tr).filter Event.isWrite := rfl

theorem finishesOf_eq (a : Nat) (tr : List Event) :
    finishesOf a tr = (eventsOf a tr).filter Event.isFinish := rfl

/-- C5: take a registered entry with a well-formed pattern of length `L`, with
`PatternIndex < L`, that repeats (repeat bit set, or `STATUS_LED_REPEAT` not
compiled in).  Every run of `StatusLed_handle` calls returns and leaves
`PatternIndex < L`.  With `n` the number of toggles (`writePin` calls) of the
run and `q = (2 * PatternIndex + State + n) % (2 * L)` computed from the entry
before the run, the entry ends with `State = q % 2` and `PatternIndex = q / 2`,
so the pair depends on `n` only modulo `2 * L`; the `writePin` calls `k` and
`k + 2 * L` of the run are equal; and the callback, if set, has run
`(2 * PatternIndex + State + n) / (2 * L)` times, once per `2 * L` toggles. -/
theorem C5_looping (cfg : BuildConfig) (fuel : Nat) (s : Store) (l : List Nat)
    (a : Nat) (p : StatusLed_Pattern) (ts : List Nat)
    (h : Registry cfg s l) (hf : l.length ≤ fuel) (ha : a ∈ l)
    (hp : (s.heap a).Pattern = some p) (hlen : p.Len ≤ p.Cycles.length) (h8 : p.Len < 2 ^ 8)
    (hrep : cfg.STATUS_LED_REPEAT = false ∨ (s.heap a).Repeat = true)
    (hi : (s.heap a).PatternIndex < p.Len) :
    ∃ s1 tr,
      pollSeq cfg fuel ts s = .ok (s1, tr) ∧
      (s1.heap a).PatternIndex < p.Len ∧
      (s1.heap a).State =
        decide ((phase (s.heap a) + (writesOf a tr).length) % (2 * p.Len) % 2 = 1) ∧
      (s1.heap a).PatternIndex =
        (phase (s.heap a) + (writesOf a tr).length) % (2 * p.Len) / 2 ∧
      (∀ k, k + 2 * p.Len < (writesOf a tr).length →
        (writesOf a tr)[k + 2 * p.Len]? = (writesOf a tr)[k]?) ∧
      (∀ fn, (s.heap a).onFinish = some fn →
        finishesOf a tr =
          List.replicate ((phase (s.heap a) + (writesOf a tr).length) / (2 * p.Len))
            (Event.onFinish fn a)) ∧
      ((s.heap a).onFinish = none → finishesOf a tr = []) := by
  have hlp : Looping cfg p (s.heap a) := ⟨hp, hlen, h8, hrep, hi⟩
  obtain ⟨s1, tr, ts1, h1, hheap, hev, -⟩ := pollSeq_entry cfg fuel s l a ts h hf ha
  obtain ⟨n, hl1, hph, -, -, -, hw, hfin⟩ := looping_run cfg a p ts1 (s.heap a) hlp
  have hwr : writesOf a tr =
      (List.range n).map (fun k => toggleWrite a (s.heap a) (phase (s.heap a) + k)) := by
    rw [writesOf_eq, hev, hw]
  have hn : (writesOf a tr).length = n := by
    rw [hwr]; simp
  have hfi : finishesOf a tr =
      (List.replicate ((phase (s.heap a) + n) / (2 * p.Len))
        (finishCall a (s.heap a))).flatten := by
    rw [finishesOf_eq, hev, hfin]
  have hinv := phase_inv _ _ hph
  refine ⟨s1, tr, h1, ?_, ?_, ?_, ?_, ?_, ?_⟩
  · rw [hheap]; exact hl1.idx
  · rw [hheap, hn]; exact hinv.1
  · rw [hheap, hn]; exact hinv.2
  · rw [hn, hwr]
    intro k hk
    have hk1 : k < n := by omega
    rw [List.getElem?_map, List.getElem?_map, List.getElem?_range hk, List.getElem?_range hk1]
    simp only [Option.map_some']
    congr 1
    apply toggleWrite_shift a _ _ rfl rfl
    omega
  · intro fn hcb
    rw [hn, hfi]
    have hfc : finishCall a (s.heap a) = [Event.onFinish fn a] := by simp [finishCall, hcb]
    rw [hfc]
    generalize (phase (s.heap a) + n) / (2 * p.Len) = m
    induction m with
    | zero => rfl
    | succ m ih => simp [List.replicate_succ, ih]
  · intro hcb
    rw [hfi]
    have hfc : finishCall a (s.heap a) = [] := by simp [finishCall, hcb]
    rw [hfc]
    generalize (phase (s.heap a) + n) / (2 * p.Len) = m
    induction m with
    | zero => rfl
    | succ m ih => simp [List.replicate_succ, ih]

/-! ## Polling a repeating entry at its deadlines -/

theorem ledSeq_append (cfg : BuildConfig) (a : Nat) (ts2 : List Nat) :
    ∀ (ts1 : List Nat) (led : StatusLed),
      ledSeq cfg a (ts1 ++ ts2) led =
        ((ledSeq cfg a ts2 (ledSeq cfg a ts1 led).1).1,
         (ledSeq cfg a ts1 led).2 ++ (ledSeq cfg a ts2 (ledSeq cfg a ts1 led).1).2) := by
  intro ts1
  induction ts1 with
  | nil => intro led; simp [ledSeq]
  | cons now ts1 ih => intro led; simp [ledSeq, ih]

theorem elapsed_succ (p : StatusLed_Pattern) (j : Nat) :
    elapsed p (j + 1) = elapsed p j + duration p j := by
  simp [elapsed, List.sum_range_succ]

theorem pollTimes_succ (t0 : Nat) (p : StatusLed_Pattern) (j : Nat) :
    pollTimes t0 p (j + 1) = pollTimes t0 p j ++ [t0 + elapsed p j] := by
  simp [pollTimes, List.range_succ]

theorem succ_mod_two_mul (j L : Nat) (hL : 1 ≤ L) :
    (j + 1) % (2 * L) = (if j % (2 * L) + 1 = 2 * L then 0 else j % (2 * L) + 1) := by
  have hlt : j % (2 * L) < 2 * L := Nat.mod_lt _ (by omega)
  have h1 : 1 % (2 * L) = 1 := Nat.mod_eq_of_lt (by omega)
  rw [Nat.add_mod, h1]
  split_ifs with hend
  · rw [hend, Nat.mod_self]
  · exact Nat.mod_eq_of_lt (by omega)

/-- A fresh repeating entry polled `j` times, each time at its deadline: it has
toggled `j` times, is at position `j % (2 * Len)`, and its deadline is the sum
of `t0` and the first `j` durations. -/
theorem period_run (cfg : BuildConfig) (a : Nat) (p : StatusLed_Pattern) (t0 : Nat)
    (led : StatusLed) (hE : led.Enabled = true) (hlp : Looping cfg p led)
    (hph : phase led = 0) (hN : led.NextBlink = 0) :
    ∀ j, t0 + elapsed p j < 2 ^ 32 →
      (ledSeq cfg a (pollTimes t0 p j) led).1.Enabled = true ∧
      Looping cfg p (ledSeq cfg a (pollTimes t0 p j) led).1 ∧
      phase (ledSeq cfg a (pollTimes t0 p j) led).1 = j % (2 * p.Len) ∧
      (ledSeq cfg a (pollTimes t0 p j) led).1.NextBlink = (if j = 0 then 0 else t0 + elapsed p j) ∧
      ((ledSeq cfg a (pollTimes t0 p j) led).2.filter Event.isWrite).length = j := by
  have hL : 1 ≤ p.Len := by have := hlp.idx; omega
  intro j
  induction j with
  | zero =>
    intro _
    refine ⟨hE, hlp, ?_, ?_, ?_⟩ <;> simp [pollTimes, ledSeq, hph, hN]
  | succ j ih =>
    intro hov
    have hov1 : t0 + elapsed p j < 2 ^ 32 := by rw [elapsed_succ] at hov; omega
    obtain ⟨hE1, hl1, hp1, hn1, hw1⟩ := ih hov1
    generalize hm : (ledSeq cfg a (pollTimes t0 p j) led).1 = mid at hE1 hl1 hp1 hn1
    have hdue : mid.NextBlink ≤ t0 + elapsed p j := by
      rw [hn1]; split_ifs <;> omega
    have hinv := phase_inv mid _ hp1
    have hidx : mid.PatternIndex = j / 2 % p.Len := by
      rw [hinv.2, Nat.mod_mul_right_div_self]
    have hst : mid.State = decide (j % 2 = 1) := by
      rw [hinv.1, Nat.mod_mod_of_dvd j (Dvd.intro p.Len rfl)]
    have hlt : mid.PatternIndex < p.Cycles.length := by have := hl1.idx; have := hl1.len; omega
    have hc : p.Cycles[mid.PatternIndex]? = some (p.Cycles[mid.PatternIndex]) :=
      List.getElem?_eq_getElem hlt
    have hdur : (p.Cycles[mid.PatternIndex]).Times mid.State = duration p j := by
      rw [duration, ← hidx, ← hst, List.getD_eq_getElem p.Cycles _ hlt]
    have hstep := stepLed_due cfg (t0 + elapsed p j) a mid p _ hE1 hdue hl1.pat
      (fun _ => hl1.idx) hc
    have hfr := blinked_frame cfg (t0 + elapsed p j) a p (p.Cycles[mid.PatternIndex]) mid
    obtain ⟨hev, hph2⟩ := blinked_phase cfg (t0 + elapsed p j) a p
      (p.Cycles[mid.PatternIndex]) mid hl1.idx hl1.len8
    have hrep : (!cfg.STATUS_LED_REPEAT || mid.Repeat) = true := by
      rcases hl1.rep with hr | hr <;> simp [hr]
    have hph3 : phase (blinked cfg (t0 + elapsed p j) a p (p.Cycles[mid.PatternIndex]) mid).1 =
        (j + 1) % (2 * p.Len) := by
      rw [hph2, succ_mod_two_mul j p.Len hL, hp1]
      simp [hrep]
    have hlt3 : phase (blinked cfg (t0 + elapsed p j) a p (p.Cycles[mid.PatternIndex]) mid).1 <
        2 * p.Len := by
      rw [hph3]; exact Nat.mod_lt _ (by omega)
    rw [pollTimes_succ, ledSeq_append, hm]
    simp only [ledSeq, hstep, List.append_nil, List.filter_append, List.length_append, hw1]
    refine ⟨?_, ⟨?_, hl1.len, hl1.len8, ?_, index_lt_of_phase_lt _ _ hlt3⟩, hph3, ?_, ?_⟩
    · rw [hfr.2.2.1]; exact hE1
    · rw [hfr.2.1]; exact hl1.pat
    · rw [hfr.2.2.2.1]; exact hl1.rep
    · have hov2 : t0 + elapsed p j + duration p j < 2 ^ 32 := by
        rw [elapsed_succ] at hov; omega
      rw [hfr.2.2.2.2.2.2.2.2.1, hdur, elapsed_succ, if_neg (Nat.succ_ne_zero j),
        Nat.mod_eq_of_lt hov2]
      omega
    · rw [hev]
      have hfw : ((Event.writePin a mid.Config (xor (!mid.State) mid.ActiveState) ::
          (if phase mid + 1 = 2 * p.Len then finishCall a mid else [])).filter
            Event.isWrite).length = 1 := by
        split_ifs <;> simp [Event.isWrite, finishCall_writes]
      rw [hfw]

/-- C8: take a registered, enabled, repeating entry (repeat bit set, or
`STATUS_LED_REPEAT` not compiled in) that is fresh (`State = On`,
`PatternIndex = 0`, `NextBlink = 0`) with a pattern of length `L >= 1`, and poll
it `j` times: at `t0` and then at each successive deadline (`pollTimes`), with
no `uint32_t` overflow up to the `j`-th deadline.  The run returns, the entry
has toggled `j` times, its state is `j % 2`, its index `j / 2 % L`, and its
deadline is `t0` plus the sum of the first `j` durations, taken in the order
`Cycles[0].Times[0]`, `Cycles[0].Times[1]`, `Cycles[1].Times[0]`, ...; after
`2 * L` polls it is back at `State = On`, `PatternIndex = 0` with
`NextBlink = t0 +` the sum of all `2 * L` durations. -/
theorem C8_time_period (cfg : BuildConfig) (fuel : Nat) (s : Store) (l : List Nat)
    (d : StatusLed_Driver) (a : Nat) (p : StatusLed_Pattern) (t0 j : Nat)
    (hd : s.ledDriver = some d) (h : Registry cfg s l) (hf : l.length ≤ fuel) (ha : a ∈ l)
    (hE : (s.heap a).Enabled = true) (hp : (s.heap a).Pattern = some p) (hL : 1 ≤ p.Len)
    (hrep : cfg.STATUS_LED_REPEAT = false ∨ (s.heap a).Repeat = true)
    (hS : (s.heap a).State = StatusLed_LedState_On) (hI : (s.heap a).PatternIndex = 0)
    (hN : (s.heap a).NextBlink = 0) (hov : t0 + elapsed p j < 2 ^ 32) :
    ∃ s1 tr,
      pollSeq cfg fuel (pollTimes t0 p j) s = .ok (s1, tr) ∧
      (writesOf a tr).length = j ∧
      (s1.heap a).State = decide (j % 2 = 1) ∧
      (s1.heap a).PatternIndex = j / 2 % p.Len ∧
      (0 < j → (s1.heap a).NextBlink = t0 + elapsed p j) ∧
      (j = 2 * p.Len →
        (s1.heap a).State = StatusLed_LedState_On ∧ (s1.heap a).PatternIndex = 0 ∧
        (s1.heap a).NextBlink = t0 + elapsed p (2 * p.Len)) := by
  obtain ⟨p1, hp1, hlen, h8, -⟩ := h.entries a ha hE
  have hpp : p1 = p := by rw [hp] at hp1; exact (Option.some.inj hp1).symm
  subst hpp
  have hlp : Looping cfg p1 (s.heap a) := ⟨hp, hlen, h8, hrep, by omega⟩
  have hph0 : phase (s.heap a) = 0 := by simp [phase, hS, hI]
  obtain ⟨-, -, hph, hnb, hw⟩ := period_run cfg a p1 t0 (s.heap a) hE hlp hph0 hN j hov
  have h1 := pollSeq_registry cfg fuel l d hf (pollTimes t0 p1 j) s hd h
  have hinv := phase_inv _ _ hph
  have hst : (ledSeq cfg a (pollTimes t0 p1 j) (s.heap a)).1.State = decide (j % 2 = 1) := by
    rw [hinv.1, Nat.mod_mod_of_dvd j (Dvd.intro p1.Len rfl)]
  have hidx : (ledSeq cfg a (pollTimes t0 p1 j) (s.heap a)).1.PatternIndex = j / 2 % p1.Len := by
    rw [hinv.2, Nat.mod_mul_right_div_self]
  have hrun := run_entry cfg a (pollTimes t0 p1 j) l s.heap ha
  refine ⟨_, _, h1, ?_, ?_, ?_, ?_, ?_⟩
  · rw [writesOf_eq, eventsOf_runEvents cfg a l h.nodup ha]; exact hw
  · show (runHeap cfg (pollTimes t0 p1 j) l s.heap a).State = _
    rw [hrun]; exact hst
  · show (runHeap cfg (pollTimes t0 p1 j) l s.heap a).PatternIndex = _
    rw [hrun]; exact hidx
  · intro hj
    show (runHeap cfg (pollTimes t0 p1 j) l s.heap a).NextBlink = _
    rw [hrun, hnb, if_neg (by omega)]
  · intro hj
    refine ⟨?_, ?_, ?_⟩
    · show (runHeap cfg (pollTimes t0 p1 j) l s.heap a).State = _
      rw [hrun, hst, hj]; simp
    · show (runHeap cfg (pollTimes t0 p1 j) l s.heap a).PatternIndex = _
      rw [hrun, hidx, hj]; simp
    · show (runHeap cfg (pollTimes t0 p1 j) l s.heap a).NextBlink = _
      rw [hrun, hnb, if_neg (by omega), hj]

theorem isFinish_of_isWrite (e : Event) (h : e.isWrite = true) : e.isFinish = false := by
  cases e <;> simp_all [Event.isWrite, Event.isFinish]

/-- A fresh one-shot entry polled `j ≤ 2 * Len` times, each time at its
deadline: every poll toggles it, so it has toggled `j` times, is at position
`j`, and its deadline is the sum of `t0` and the first `j` durations. -/
theorem oneShot_deadline_run (cfg : BuildConfig) (a : Nat) (p : StatusLed_Pattern) (t0 : Nat)
    (led : StatusLed) (hE : led.Enabled = true) (hos : OneShot cfg p led)
    (hph : phase led = 0) (hN : led.NextBlink = 0) :
    ∀ j, j ≤ 2 * p.Len → t0 + elapsed p j < 2 ^ 32 →
      (ledSeq cfg a (pollTimes t0 p j) led).1.Enabled = true ∧
      OneShot cfg p (ledSeq cfg a (pollTimes t0 p j) led).1 ∧
      phase (ledSeq cfg a (pollTimes t0 p j) led).1 = j ∧
      (ledSeq cfg a (pollTimes t0 p j) led).1.NextBlink = (if j = 0 then 0 else t0 + elapsed p j) ∧
      ((ledSeq cfg a (pollTimes t0 p j) led).2.filter Event.isWrite).length = j := by
  intro j
  induction j with
  | zero =>
    intro _ _
    refine ⟨hE, hos, ?_, ?_, ?_⟩ <;> simp [pollTimes, ledSeq, hph, hN]
  | succ j ih =>
    intro hj hov
    have hov1 : t0 + elapsed p j < 2 ^ 32 := by rw [elapsed_succ] at hov; omega
    obtain ⟨hE1, hl1, hp1, hn1, hw1⟩ := ih (by omega) hov1
    generalize hm : (ledSeq cfg a (pollTimes t0 p j) led).1 = mid at hE1 hl1 hp1 hn1
    have hdue : mid.NextBlink ≤ t0 + elapsed p j := by
      rw [hn1]; split_ifs <;> omega
    have hinv := phase_inv mid _ hp1
    have hil : mid.PatternIndex < p.Len := index_lt_of_phase_lt mid p.Len (by omega)
    have hidx : mid.PatternIndex = j / 2 % p.Len := by
      rw [hinv.2] at hil
      rw [hinv.2, Nat.mod_eq_of_lt hil]
    have hst : mid.State = decide (j % 2 = 1) := hinv.1
    have hlt : mid.PatternIndex < p.Cycles.length := by have := hl1.len; omega
    have hc : p.Cycles[mid.PatternIndex]? = some (p.Cycles[mid.PatternIndex]) :=
      List.getElem?_eq_getElem hlt
    have hdur : (p.Cycles[mid.PatternIndex]).Times mid.State = duration p j := by
      rw [duration, ← hidx, ← hst, List.getD_eq_getElem p.Cycles _ hlt]
    have hstep := stepLed_due cfg (t0 + elapsed p j) a mid p _ hE1 hdue hl1.pat
      (fun _ => hil) hc
    have hfr := blinked_frame cfg (t0 + elapsed p j) a p (p.Cycles[mid.PatternIndex]) mid
    obtain ⟨hev, hph2⟩ := blinked_phase cfg (t0 + elapsed p j) a p
      (p.Cycles[mid.PatternIndex]) mid hil hl1.len8
    have hph3 : phase (blinked cfg (t0 + elapsed p j) a p (p.Cycles[mid.PatternIndex]) mid).1 =
        j + 1 := by
      rw [hph2, hp1]
      simp [hl1.rep, hl1.once]
    rw [pollTimes_succ, ledSeq_append, hm]
    simp only [ledSeq, hstep, List.append_nil, List.filter_append, List.length_append, hw1]
    refine ⟨?_, ⟨hl1.rep, ?_, hl1.len, hl1.len8, ?_, ?_⟩, hph3, ?_, ?_⟩
    · rw [hfr.2.2.1]; exact hE1
    · rw [hfr.2.1]; exact hl1.pat
    · rw [hfr.2.2.2.1]; exact hl1.once
    · rw [hph3]; exact hj
    · have hov2 : t0 + elapsed p j + duration p j < 2 ^ 32 := by
        rw [elapsed_succ] at hov; omega
      rw [hfr.2.2.2.2.2.2.2.2.1, hdur, elapsed_succ, if_neg (Nat.succ_ne_zero j),
        Nat.mod_eq_of_lt hov2]
      omega
    · rw [hev]
      have hfw : ((Event.writePin a mid.Config (xor (!mid.State) mid.ActiveState) ::
          (if phase mid + 1 = 2 * p.Len then finishCall a mid else [])).filter
            Event.isWrite).length = 1 := by
        split_ifs <;> simp [Event.isWrite, finishCall_writes]
      rw [hfw]

/-- C4: with `STATUS_LED_REPEAT` compiled in, take a registered, enabled entry
with a pattern of length `L >= 1`, the repeat bit clear, `State = On`,
`PatternIndex = 0` and a callback `fn`.

Safety, for every run of `StatusLed_handle` calls (at any timestamps): the run
returns; the entry is toggled at most `2 * L` times; the calls made for it are
its `writePin` calls followed, exactly when there are `2 * L` of them, by one
`onFinish` call, which therefore comes once, right after the `2 * L`-th toggle;
and once `2 * L` toggles are done `PatternIndex = L` and no later run changes
the entry or makes a call for it.

Progress, with a driver installed and `NextBlink = 0`: the run of `j <= 2 * L`
polls made at `t0` and then at each successive deadline (`pollTimes`, no
`uint32_t` overflow up to the `j`-th deadline) returns with exactly `j` toggles
of the entry, which is then at position `j`; `onFinish` has not been called
while `j < 2 * L` and has been called exactly once, as `onFinish fn a` after
the last `writePin`, when `j = 2 * L`, where `PatternIndex = L`. -/
theorem C4_exactly_once (cfg : BuildConfig) (fuel : Nat) (s : Store) (l : List Nat)
    (a : Nat) (p : StatusLed_Pattern) (fn : Nat) (ts : List Nat)
    (hR : cfg.STATUS_LED_REPEAT = true) (h : Registry cfg s l)
    (hf : l.length ≤ fuel) (ha : a ∈ l) (hE : (s.heap a).Enabled = true)
    (hp : (s.heap a).Pattern = some p) (hL : 1 ≤ p.Len) (hr : (s.heap a).Repeat = false)
    (hS : (s.heap a).State = StatusLed_LedState_On) (hI : (s.heap a).PatternIndex = 0)
    (hcb : (s.heap a).onFinish = some fn) :
    (∃ s1 tr,
      pollSeq cfg fuel ts s = .ok (s1, tr) ∧
      (writesOf a tr).length ≤ 2 * p.Len ∧
      eventsOf a tr =
        writesOf a tr ++
          (if (writesOf a tr).length = 2 * p.Len then [Event.onFinish fn a] else []) ∧
      phase (s1.heap a) = (writesOf a tr).length ∧
      ((writesOf a tr).length = 2 * p.Len →
        (s1.heap a).PatternIndex = p.Len ∧
        ∀ ts2 : List Nat, ∃ s2 tr2,
          pollSeq cfg fuel ts2 s1 = .ok (s2, tr2) ∧ s2.heap a = s1.heap a ∧
          eventsOf a tr2 = [])) ∧
    (∀ (d : StatusLed_Driver) (t0 j : Nat),
      s.ledDriver = some d → (s.heap a).NextBlink = 0 → j ≤ 2 * p.Len →
      t0 + elapsed p j < 2 ^ 32 →
      ∃ s1 tr,
        pollSeq cfg fuel (pollTimes t0 p j) s = .ok (s1, tr) ∧
        (writesOf a tr).length = j ∧
        phase (s1.heap a) = j ∧
        finishesOf a tr = (if j = 2 * p.Len then [Event.onFinish fn a] else []) ∧
        (j = 2 * p.Len →
          eventsOf a tr = writesOf a tr ++ [Event.onFinish fn a] ∧
          (s1.heap a).PatternIndex = p.Len)) := by
  refine ⟨?_, ?_⟩
  · obtain ⟨p1, hp1, hlen, h8, -⟩ := h.entries a ha hE
    have hpp : p1 = p := by rw [hp] at hp1; exact (Option.some.inj hp1).symm
    subst hpp
    have hph0 : phase (s.heap a) = 0 := by simp [phase, hS, hI]
    have hos : OneShot cfg p1 (s.heap a) := ⟨hR, hp, hlen, h8, hr, by omega⟩
    obtain ⟨s1, tr, ts1, h1, hheap, hevent, hreg⟩ := pollSeq_entry cfg fuel s l a ts h hf ha
    obtain ⟨ws, hle, hw, hos1, hph1, -, hev⟩ := oneShot_run cfg a p1 ts1 (s.heap a) hos
    have hfc : finishCall a (s.heap a) = [Event.onFinish fn a] := by simp [finishCall, hcb]
    have hevs : eventsOf a tr =
        ws ++ (if ws.length = 2 * p1.Len then [Event.onFinish fn a] else []) := by
      rw [hevent, hev, hfc, hph0]
      by_cases hn : ws.length = 2 * p1.Len
      · have hpos : 0 < ws.length := by omega
        simp [hn]
        omega
      · simp [hn]
    have hwr : writesOf a tr = ws := by
      rw [writesOf, hevs, List.filter_append, List.filter_eq_self.mpr hw]
      split_ifs <;> simp [Event.isWrite]
    refine ⟨s1, tr, h1, ?_, ?_, ?_, ?_⟩
    · rw [hwr]; omega
    · rw [hwr]; exact hevs
    · rw [hwr, hheap, hph1, hph0]; omega
    · rw [hwr]
      intro hn
      have hphL : phase (ledSeq cfg a ts1 (s.heap a)).1 = 2 * p1.Len := by
        rw [hph1, hph0]; omega
      have hidx : (ledSeq cfg a ts1 (s.heap a)).1.PatternIndex = p1.Len := by
        have hle1 := index_le_of_phase_le _ _ hos1.pos
        cases hS1 : (ledSeq cfg a ts1 (s.heap a)).1.State <;>
          simp [phase, hS1] at hphL <;> omega
      refine ⟨by rw [hheap]; exact hidx, ?_⟩
      intro ts2
      obtain ⟨s2, tr2, ts3, h2, hheap2, hevent2, -⟩ := pollSeq_entry cfg fuel s1 l a ts2 hreg hf ha
      have hfro := ledSeq_frozen cfg a p1 (s1.heap a) hR (by rw [hheap]; exact hos1.pat)
        (by rw [hheap]; omega) ts3
      refine ⟨s2, tr2, h2, ?_, ?_⟩
      · rw [hheap2, hfro]
      · rw [hevent2, hfro]
  · obtain ⟨p1, hp1, hlen, h8, -⟩ := h.entries a ha hE
    have hpp : p1 = p := by rw [hp] at hp1; exact (Option.some.inj hp1).symm
    subst hpp
    have hph0 : phase (s.heap a) = 0 := by simp [phase, hS, hI]
    have hos : OneShot cfg p1 (s.heap a) := ⟨hR, hp, hlen, h8, hr, by omega⟩
    have hfc : finishCall a (s.heap a) = [Event.onFinish fn a] := by simp [finishCall, hcb]
    intro d t0 j hd hN hj hov
    obtain ⟨-, hosj, hphj, -, hwj⟩ :=
      oneShot_deadline_run cfg a p1 t0 (s.heap a) hE hos hph0 hN j hj hov
    obtain ⟨ws, -, hw, -, -, -, hev⟩ := oneShot_run cfg a p1 (pollTimes t0 p1 j) (s.heap a) hos
    have hfin : ∀ x : List Event, x = [Event.onFinish fn a] ∨ x = [] →
        x.filter Event.isWrite = [] ∧ x.filter Event.isFinish = x := by
      intro x hx
      rcases hx with hx | hx <;> subst hx <;> simp [Event.isWrite, Event.isFinish]
    have hwsf : ws.filter Event.isFinish = [] :=
      List.filter_eq_nil_iff.mpr (fun e he => by simp [isFinish_of_isWrite e (hw e he)])
    have hws : ws.length = j := by
      rw [hev, hfc, List.filter_append, List.filter_eq_self.mpr hw, List.length_append] at hwj
      split_ifs at hwj <;> simpa [Event.isWrite] using hwj
    have hevj : (ledSeq cfg a (pollTimes t0 p1 j) (s.heap a)).2 =
        ws ++ (if j = 2 * p1.Len then [Event.onFinish fn a] else []) := by
      rw [hev, hfc, hph0, hws]
      by_cases hn : j = 2 * p1.Len
      · have hpos : 0 < j := by omega
        simp [hn]
        omega
      · simp [hn]
    have hwr : (ledSeq cfg a (pollTimes t0 p1 j) (s.heap a)).2.filter Event.isWrite = ws := by
      rw [hevj, List.filter_append, List.filter_eq_self.mpr hw]
      split_ifs <;> simp [Event.isWrite]
    have hrun := run_entry cfg a (pollTimes t0 p1 j) l s.heap ha
    refine ⟨_, _, pollSeq_registry cfg fuel l d hf (pollTimes t0 p1 j) s hd h, ?_, ?_, ?_, ?_⟩
    · rw [writesOf_eq, eventsOf_runEvents cfg a l h.nodup ha]; exact hwj
    · show phase (runHeap cfg (pollTimes t0 p1 j) l s.heap a) = j
      rw [hrun]; exact hphj
    · rw [finishesOf_eq, eventsOf_runEvents cfg a l h.nodup ha, hevj, List.filter_append, hwsf]
      split_ifs <;> simp [Event.isFinish]
    · intro hn
      refine ⟨?_, ?_⟩
      · rw [writesOf_eq, eventsOf_runEvents cfg a l h.nodup ha, hwr, hevj, if_pos hn]
      · show (runHeap cfg (pollTimes t0 p1 j) l s.heap a).PatternIndex = p1.Len
        rw [hrun]
        have hle1 := index_le_of_phase_le _ _ hosj.pos
        cases hS1 : (ledSeq cfg a (pollTimes t0 p1 j) (s.heap a)).1.State <;>
          simp [phase, hS1] at hphj <;> omega

/-! ## Registry operations -/

theorem traversal_self_loop (heap : Nat → StatusLed) (a : Nat) (h : (heap a).Previous = some a) :
    ∀ fuel, traversal fuel heap (some a) = .error Fault.outOfFuel := by
  intro fuel
  induction fuel with
  | zero => rfl
  | succ f ih => simp [traversal, h, ih]

/-- C9, as stated, fails when the entry is already registered: in the chain
`1 → 2`, `StatusLed_add` on the entry at address 1 returns `Ok` and sets its
`Previous` to the former head, which is the entry itself; behind the new head
the former chain is no longer found, and the traversal from `lastLed` never
reaches the entry at address 2 (it does not end within any fuel).  It also
fails when `STATUS_LED_IO_INIT` is compiled in and no driver is installed:
`__initPin` dereferences the null driver and the call does not return `Ok`. -/
theorem C9_add_counterexample :
    (LedChain chainStore.heap chainStore.lastLed [1, 2] ∧
      ∃ s1 evs,
        StatusLed_add (demoConfig true false false) chainStore (some 1) 7 =
          .ok (StatusLed_Status_Ok, s1, evs) ∧
        (s1.heap 1).Previous = some 1 ∧
        ¬ LedChain s1.heap (s1.heap 1).Previous [1, 2] ∧
        ∀ fuel, traversal fuel s1.heap s1.lastLed = .error Fault.outOfFuel) ∧
    StatusLed_add (demoConfig true true false) (StatusLed_init demoStore none) (some 2) 9 =
      .error Fault.nullDeref := by
  refine ⟨⟨⟨rfl, rfl, rfl⟩, _, _, rfl, rfl, ?_, ?_⟩, rfl⟩
  · intro hc
    have h2 := hc.2.1
    simp [chainStore] at h2
  · exact traversal_self_loop _ 1 rfl

/-- C9, amended: `StatusLed_add(NULL, config)` returns `StatusLed_Status_Null`
and changes nothing.  For every non-null `led` (the driver being installed when
`STATUS_LED_IO_INIT` is compiled in) it returns `StatusLed_Status_Ok`; afterwards
`led` has `State = On`, no pattern, `PatternIndex = 0`, `NextBlink = 0`,
`Config = config`, `Configured = 1`, `Enabled = 1`, it is the head of the chain
and its `Previous` is the former head, and no other object has changed.  When
`led` was not in the former chain `l`, the chain is now `led` followed by `l`. -/
theorem C9_add_contract (cfg : BuildConfig) (s : Store) (a config : Nat)
    (hdrv : cfg.STATUS_LED_IO_INIT = true → s.ledDriver ≠ none) :
    StatusLed_add cfg s none config = .ok (StatusLed_Status_Null, s, []) ∧
    ∃ s1 evs,
      StatusLed_add cfg s (some a) config = .ok (StatusLed_Status_Ok, s1, evs) ∧
      (s1.heap a).State = StatusLed_LedState_On ∧ (s1.heap a).Pattern = none ∧
      (s1.heap a).PatternIndex = 0 ∧ (s1.heap a).NextBlink = 0 ∧
      (s1.heap a).Config = config ∧ (s1.heap a).Configured = true ∧
      (s1.heap a).Enabled = true ∧
      s1.lastLed = some a ∧ (s1.heap a).Previous = s.lastLed ∧
      (∀ b, b ≠ a → s1.heap b = s.heap b) ∧
      (∀ l, LedChain s.heap s.lastLed l → a ∉ l → LedChain s1.heap s1.lastLed (a :: l)) := by
  refine ⟨rfl, ?_⟩
  have hinit : ∃ evs, initPinCall cfg s config = .ok evs := by
    unfold initPinCall
    cases hI : cfg.STATUS_LED_IO_INIT
    · exact ⟨[], rfl⟩
    · cases hD : s.ledDriver with
      | none => exact absurd hD (hdrv hI)
      | some d => exact ⟨_, rfl⟩
  obtain ⟨evs, hevs⟩ := hinit
  refine ⟨_, evs, by simp only [StatusLed_add, hevs]; rfl, ?_, ?_, ?_, ?_, ?_, ?_, ?_, rfl,
    ?_, ?_, ?_⟩
  any_goals simp [StatusLed_setConfig]
  · intro b hb
    exact Function.update_noteq hb _ _
  · intro l hc ha
    refine ⟨rfl, ?_⟩
    rw [Function.update_same]
    refine ledChain_congr s.heap _ l _ ?_ hc
    intro b hb
    have hba : b ≠ a := fun h => ha (h ▸ hb)
    rw [Function.update_noteq hba]

/-- C10, evaluated at the chain `1 → 2` with `StatusLed_remove` applied to the
head (address 1): the call returns `Ok` and clears `Previous`, `Configured` and
`Enabled` of the removed entry, but `lastLed` still points to it.  The traversal
from `lastLed` now visits the removed entry and nothing else, where the claim
requires it to visit exactly the entry at address 2: `StatusLed_find` no longer
finds pin configuration 8, and `StatusLed_handle` at `now = 0` makes no call and
leaves the entry at address 2 untouched although it is enabled and due. -/
theorem C10_remove_head_drops_chain (cfg : BuildConfig) :
    LedChain chainStore.heap chainStore.lastLed [1, 2] ∧
    ∃ s1 evs,
      StatusLed_remove cfg 2 chainStore (some 1) = .ok (StatusLed_Status_Ok, s1, evs) ∧
      s1.lastLed = some 1 ∧
      (s1.heap 1).Previous = none ∧ (s1.heap 1).Configured = false ∧
      (s1.heap 1).Enabled = false ∧
      traversal 2 s1.heap s1.lastLed = .ok [1] ∧
      s1.heap 2 = chainStore.heap 2 ∧
      (s1.heap 2).Enabled = true ∧ (s1.heap 2).NextBlink = 0 ∧ (s1.heap 2).Config = 8 ∧
      StatusLed_find 2 s1 8 = .ok none ∧
      ∃ s2, StatusLed_handle cfg 2 0 s1 = .ok (cfg.STATUS_LED_IDLE_TIME, s2, []) ∧
        s2.heap 2 = chainStore.heap 2 := by
  have hde : deinitPinCall cfg chainStore (chainStore.heap 1).Config = .ok [] := by
    unfold deinitPinCall
    cases cfg.STATUS_LED_IO_DEINIT <;> rfl
  have hrem : StatusLed_remove cfg 2 chainStore (some 1) = unlink cfg chainStore 1 (some 1) := rfl
  have hrem1 : StatusLed_remove cfg 2 chainStore (some 1) =
      .ok (StatusLed_Status_Ok, unlinkStore chainStore 1 1, []) := by
    rw [hrem]; simp only [unlink, hde]
  have hreg : Registry cfg (unlinkStore chainStore 1 1) [1] := by
    refine ⟨⟨rfl, rfl⟩, by simp, ?_⟩
    intro b hb
    have hb1 : b = 1 := by simpa using hb
    subst hb1
    intro hE
    exact absurd hE (by decide)
  have h1 := handle_registry cfg 2 0 (unlinkStore chainStore 1 1) [1] _ rfl hreg (by simp)
  have hev : scanEvents cfg 0 [1] (unlinkStore chainStore 1 1).heap = [] := by
    have hdis : ((unlinkStore chainStore 1 1).heap 1).Enabled = false := rfl
    simp [scanEvents, stepLed_disabled cfg 0 1 _ hdis]
  rw [hev] at h1
  refine ⟨⟨rfl, rfl, rfl⟩, unlinkStore chainStore 1 1, [], hrem1, rfl, rfl, rfl, rfl,
    rfl, rfl, rfl, rfl, rfl, rfl, _, h1, ?_⟩
  show scanHeap cfg 0 [1] (unlinkStore chainStore 1 1).heap 2 = chainStore.heap 2
  simp [scanHeap]
  rfl

/-! ## The properties at concrete registries -/

theorem singleStore_registry (cfg : BuildConfig) (led : StatusLed) (hprev : led.Previous = none)
    (hok : EntryOK cfg led) : Registry cfg (singleStore led) [1] := by
  refine ⟨⟨rfl, hprev⟩, by simp, ?_⟩
  intro b hb
  have hb1 : b = 1 := by simpa using hb
  subst hb1
  exact hok

theorem demoLed_variant_ok (cfg : BuildConfig) (led : StatusLed)
    (hp : led.Pattern = some demoPattern) (hi : led.PatternIndex = 0) : EntryOK cfg led := by
  intro _
  refine ⟨demoPattern, hp, by decide, by decide, ?_⟩
  rw [hi]
  cases cfg.STATUS_LED_REPEAT <;> simp [demoPattern]

/-- C3 at the fresh entry of `demoStore`, polled at `now = 0`. -/
theorem C3_due_step_witness :
    ∃ r s1 tr c,
      StatusLed_handle (demoConfig true false false) 1 0 demoStore = .ok (r, s1, tr) ∧
      demoPattern.Cycles[(demoStore.heap 1).PatternIndex]? = some c ∧
      (s1.heap 1).NextBlink = (0 + c.Times (demoStore.heap 1).State) % 2 ^ 32 ∧
      (s1.heap 1).State = (!(demoStore.heap 1).State) ∧
      writesOf 1 tr =
        [Event.writePin 1 (demoStore.heap 1).Config
          (xor (!(demoStore.heap 1).State) (demoStore.heap 1).ActiveState)] :=
  C3_due_step (demoConfig true false false) 1 0 demoStore [1]
    { initPin := false, deinitPin := false } 1 demoPattern rfl
    (demoStore_registry (demoConfig true false false)) (by decide) (by decide) rfl rfl
    (by decide) (by decide)

/-- C4 at a fresh one-shot entry with `demoPattern` (`L = 2`), polled at its
deadlines 0, 200, 300 and 350: the run makes the four `writePin` calls and then
the one `onFinish` call, leaves `PatternIndex = 2`, and no later run changes
the entry or makes a call for it. -/
theorem C4_exactly_once_witness :
    pollTimes 0 demoPattern (2 * demoPattern.Len) = [0, 200, 300, 350] ∧
    ∃ s1 tr,
      pollSeq (demoConfig true false false) 1 [0, 200, 300, 350] (singleStore oneShotLed) =
        .ok (s1, tr) ∧
      eventsOf 1 tr =
        [Event.writePin 1 7 true, Event.writePin 1 7 false, Event.writePin 1 7 true,
          Event.writePin 1 7 false, Event.onFinish 5 1] ∧
      (writesOf 1 tr).length = 4 ∧
      finishesOf 1 tr = [Event.onFinish 5 1] ∧
      (s1.heap 1).PatternIndex = 2 ∧
      ∀ ts2 : List Nat, ∃ s2 tr2,
        pollSeq (demoConfig true false false) 1 ts2 s1 = .ok (s2, tr2) ∧
        s2.heap 1 = s1.heap 1 ∧ eventsOf 1 tr2 = [] := by
  have hT : pollTimes 0 demoPattern (2 * demoPattern.Len) = [0, 200, 300, 350] := by decide
  obtain ⟨hsafe, hprog⟩ :=
    C4_exactly_once (demoConfig true false false) 1 (singleStore oneShotLed) [1]
      1 demoPattern 5 [0, 200, 300, 350] rfl
      (singleStore_registry _ oneShotLed rfl (demoLed_variant_ok _ oneShotLed rfl rfl))
      (by decide) (by decide) rfl rfl (by decide) rfl rfl rfl rfl
  obtain ⟨s1, tr, h1, -, -, -, hfro⟩ := hsafe
  obtain ⟨s2, tr2, h2, hw, -, hfin, hlast⟩ :=
    hprog { initPin := false, deinitPin := false } 0 (2 * demoPattern.Len) rfl rfl
      (Nat.le_refl _) (by decide)
  rw [hT, h1] at h2
  injection h2 with h2
  injection h2 with hs htr
  subst hs
  subst htr
  rw [if_pos rfl] at hfin
  obtain ⟨hev, hidx⟩ := hlast rfl
  obtain ⟨-, hnever⟩ := hfro hw
  have hwr : writesOf 1 tr =
      [Event.writePin 1 7 true, Event.writePin 1 7 false, Event.writePin 1 7 true,
        Event.writePin 1 7 false] := by
    have h0 := pollSeq_registry (demoConfig true false false) 1 [1]
      { initPin := false, deinitPin := false } (by decide) [0, 200, 300, 350]
      (singleStore oneShotLed) rfl
      (singleStore_registry _ oneShotLed rfl (demoLed_variant_ok _ oneShotLed rfl rfl))
    rw [h1] at h0
    injection h0 with h0
    injection h0 with hs htr
    rw [htr]
    rfl
  refine ⟨hT, s1, tr, h1, ?_, hw, hfin, hidx, hnever⟩
  rw [hev, hwr]
  rfl

/-- C5 at the repeating entry of `demoStore`, polled at 0, 200, 300, 350, 400
and 600. -/
theorem C5_looping_witness :
    ∃ s1 tr,
      pollSeq (demoConfig false false false) 1 [0, 200, 300, 350, 400, 600] demoStore =
        .ok (s1, tr) ∧
      (s1.heap 1).PatternIndex < demoPattern.Len ∧
      (s1.heap 1).State =
        decide ((phase (demoStore.heap 1) + (writesOf 1 tr).length) % (2 * demoPattern.Len) % 2
          = 1) ∧
      (s1.heap 1).PatternIndex =
        (phase (demoStore.heap 1) + (writesOf 1 tr).length) % (2 * demoPattern.Len) / 2 ∧
      (∀ k, k + 2 * demoPattern.Len < (writesOf 1 tr).length →
        (writesOf 1 tr)[k + 2 * demoPattern.Len]? = (writesOf 1 tr)[k]?) ∧
      (∀ fn, (demoStore.heap 1).onFinish = some fn →
        finishesOf 1 tr =
          List.replicate
            ((phase (demoStore.heap 1) + (writesOf 1 tr).length) / (2 * demoPattern.Len))
            (Event.onFinish fn 1)) ∧
      ((demoStore.heap 1).onFinish = none → finishesOf 1 tr = []) :=
  C5_looping (demoConfig false false false) 1 demoStore [1]
    1 demoPattern [0, 200, 300, 350, 400, 600]
    (demoStore_registry _) (by decide) (by decide) rfl (by decide) (by decide) (Or.inl rfl)
    (by decide)

/-- C6 at an entry waiting for the deadline 200, polled at `now = 150`. -/
theorem C6_idle_safety_witness :
    ∃ r s1 tr,
      StatusLed_handle (demoConfig true false false) 1 150 (singleStore waitingLed) =
        .ok (r, s1, tr) ∧
      s1.heap 1 = (singleStore waitingLed).heap 1 ∧ eventsOf 1 tr = [] :=
  C6_idle_safety (demoConfig true false false) 1 150 (singleStore waitingLed) [1] 1
    (singleStore_registry _ waitingLed rfl (demoLed_variant_ok _ waitingLed rfl rfl))
    (by decide) (by decide) (by decide)

/-- C7 at the head of `chainStore`, disabled and then polled at 0, 200 and
5000. -/
theorem C7_disabled_inert_witness :
    ∃ s2 tr,
      pollSeq (demoConfig true false false) 2 [0, 200, 5000]
          (chainStore.onLed 1 (fun led => StatusLed_setEnabled led 0)) = .ok (s2, tr) ∧
      s2.heap 1 = StatusLed_setEnabled (chainStore.heap 1) 0 ∧
      (s2.heap 1).State = (chainStore.heap 1).State ∧
      (s2.heap 1).PatternIndex = (chainStore.heap 1).PatternIndex ∧
      (s2.heap 1).NextBlink = (chainStore.heap 1).NextBlink ∧
      eventsOf 1 tr = [] :=
  C7_disabled_inert (demoConfig true false false) 2 chainStore [1, 2] 1 [0, 200, 5000]
    ⟨rfl, rfl, rfl⟩ (by decide)
    (fun b hb hne => by
      have hb2 : b = 2 := by
        rcases List.mem_cons.mp hb with h | h
        · exact absurd h hne
        · simpa using h
      subst hb2
      exact demoLed_variant_ok _ _ rfl rfl)
    (by decide) (by decide)

/-- C8 at the claim's pattern `[(200,100),(50,50)]` with `t0 = 0`: the four polls
are at 0, 200, 300 and 350, the deadlines are 200, 300, 350 and 400, and after
the fourth poll the entry is back at `State = On`, `PatternIndex = 0`. -/
theorem C8_time_period_witness :
    pollTimes 0 demoPattern 4 = [0, 200, 300, 350] ∧
    (elapsed demoPattern 1 = 200 ∧ elapsed demoPattern 2 = 300 ∧
      elapsed demoPattern 3 = 350 ∧ elapsed demoPattern 4 = 400) ∧
    ∃ s1 tr,
      pollSeq (demoConfig false false false) 1 (pollTimes 0 demoPattern 4) demoStore =
        .ok (s1, tr) ∧
      (writesOf 1 tr).length = 4 ∧
      (s1.heap 1).State = decide (4 % 2 = 1) ∧
      (s1.heap 1).PatternIndex = 4 / 2 % demoPattern.Len ∧
      (0 < 4 → (s1.heap 1).NextBlink = 0 + elapsed demoPattern 4) ∧
      (4 = 2 * demoPattern.Len →
        (s1.heap 1).State = StatusLed_LedState_On ∧ (s1.heap 1).PatternIndex = 0 ∧
        (s1.heap 1).NextBlink = 0 + elapsed demoPattern (2 * demoPattern.Len)) :=
  ⟨by decide, ⟨by decide, by decide, by decide, by decide⟩,
    C8_time_period (demoConfig false false false) 1 demoStore [1]
      { initPin := false, deinitPin := false } 1 demoPattern 0 4 rfl (demoStore_registry _)
      (by decide) (by decide) rfl rfl (by decide) (Or.inl rfl) rfl rfl rfl (by decide)⟩

/-- C9 at `demoStore` with pin initialisation compiled in: the entry at address
2 is added with pin configuration 9. -/
theorem C9_add_contract_witness :
    StatusLed_add (demoConfig true true false) demoStore none 9 =
      .ok (StatusLed_Status_Null, demoStore, []) ∧
    ∃ s1 evs,
      StatusLed_add (demoConfig true true false) demoStore (some 2) 9 =
        .ok (StatusLed_Status_Ok, s1, evs) ∧
      (s1.heap 2).State = StatusLed_LedState_On ∧ (s1.heap 2).Pattern = none ∧
      (s1.heap 2).PatternIndex = 0 ∧ (s1.heap 2).NextBlink = 0 ∧
      (s1.heap 2).Config = 9 ∧ (s1.heap 2).Configured = true ∧
      (s1.heap 2).Enabled = true ∧
      s1.lastLed = some 2 ∧ (s1.heap 2).Previous = demoStore.lastLed ∧
      (∀ b, b ≠ 2 → s1.heap b = demoStore.heap b) ∧
      (∀ l, LedChain demoStore.heap demoStore.lastLed l → 2 ∉ l →
        LedChain s1.heap s1.lastLed (2 :: l)) :=
  C9_add_contract (demoConfig true true false) demoStore 2 9 (fun _ h => by cases h)

/-! ## Removal of an entry that is not the head -/

theorem unlinkStore_heap (s : Store) (q r : Nat) (hqr : q ≠ r) :
    (unlinkStore s q r).heap q = { s.heap q with Previous := (s.heap r).Previous } ∧
    (unlinkStore s q r).heap r =
      { s.heap r with Previous := none, Configured := false, Enabled := false } ∧
    ∀ b, b ≠ q → b ≠ r → (unlinkStore s q r).heap b = s.heap b := by
  have hrq : r ≠ q := fun h => hqr h.symm
  refine ⟨?_, ?_, ?_⟩
  · simp [unlinkStore, Function.update_noteq hqr]
  · simp [unlinkStore, Function.update_noteq hrq]
  · intro b hbq hbr
    simp [unlinkStore, Function.update_noteq hbq, Function.update_noteq hbr]

theorem deinitPinCall_ok (cfg : BuildConfig) (s : Store) (config : Nat)
    (hdrv : cfg.STATUS_LED_IO_DEINIT = true → s.ledDriver ≠ none) :
    ∃ evs, deinitPinCall cfg s config = .ok evs := by
  unfold deinitPinCall
  cases hI : cfg.STATUS_LED_IO_DEINIT
  · exact ⟨[], rfl⟩
  · cases hD : s.ledDriver with
    | none => exact absurd hD (hdrv hI)
    | some d => exact ⟨_, rfl⟩

/-- The loop of `StatusLed_remove` walks down the chain to the predecessor `q`
of the entry `r` and runs the unlink block there. -/
theorem removeLoop_walk (cfg : BuildConfig) (s : Store) (q r : Nat) (l2 : List Nat) :
    ∀ (l1 : List Nat) (p : Option Nat) (fuel : Nat),
      LedChain s.heap p (l1 ++ q :: r :: l2) → (l1 ++ q :: r :: l2).Nodup →
      l1.length + 1 ≤ fuel →
      removeLoop cfg s (some r) fuel p = unlink cfg s q (some r) := by
  intro l1
  induction l1 with
  | nil =>
    intro p fuel hc _ hf
    have hp : p = some q := hc.1
    have hprev : (s.heap q).Previous = some r := hc.2.1
    subst hp
    cases fuel with
    | zero => simp at hf
    | succ f => simp [removeLoop, hprev]
  | cons x l1 ih =>
    intro p fuel hc hnd hf
    have hp : p = some x := hc.1
    subst hp
    have hnd1 : (l1 ++ q :: r :: l2).Nodup := (List.nodup_cons.mp hnd).2
    cases fuel with
    | zero => simp at hf
    | succ f =>
      have hne : some r ≠ (s.heap x).Previous := by
        intro heq
        cases l1 with
        | nil =>
          have hq : (s.heap x).Previous = some q := hc.2.1
          rw [hq] at heq
          have hrq : r = q := Option.some.inj heq
          subst hrq
          simp at hnd1
        | cons y l1 =>
          have hy : (s.heap x).Previous = some y := hc.2.1
          rw [hy] at heq
          have hry : r = y := Option.some.inj heq
          subst hry
          simp at hnd1
      have hlen : l1.length + 1 ≤ f := by simpa using hf
      simp only [removeLoop, hne, if_false]
      exact ih _ f hc.2 hnd1 hlen

theorem ledChain_unlink (s : Store) (q r : Nat) (l2 : List Nat) :
    ∀ (l1 : List Nat) (p : Option Nat),
      LedChain s.heap p (l1 ++ q :: r :: l2) → (l1 ++ q :: r :: l2).Nodup →
      LedChain (unlinkStore s q r).heap p (l1 ++ q :: l2) := by
  intro l1
  induction l1 with
  | nil =>
    intro p hc hnd
    have hnd0 : (q :: r :: l2).Nodup := hnd
    have hqr : q ≠ r := by
      intro h; subst h; simp at hnd0
    obtain ⟨hq, hr, hother⟩ := unlinkStore_heap s q r hqr
    refine ⟨hc.1, ?_⟩
    rw [hq]
    refine ledChain_congr s.heap _ l2 _ ?_ hc.2.2
    intro b hb
    have hbq : b ≠ q := by
      intro h; subst h
      exact (List.nodup_cons.mp hnd0).1 (List.mem_cons_of_mem r hb)
    have hbr : b ≠ r := by
      intro h; subst h
      exact (List.nodup_cons.mp (List.nodup_cons.mp hnd0).2).1 hb
    rw [hother b hbq hbr]
  | cons x l1 ih =>
    intro p hc hnd
    obtain ⟨hx, hnd1⟩ := List.nodup_cons.mp hnd
    have hqr : q ≠ r := by
      intro h; subst h
      have := (List.nodup_append.mp hnd1).2.1
      simp at this
    obtain ⟨-, -, hother⟩ := unlinkStore_heap s q r hqr
    have hxq : x ≠ q := by
      intro h; subst h; exact hx (by simp)
    have hxr : x ≠ r := by
      intro h; subst h; exact hx (by simp)
    refine ⟨hc.1, ?_⟩
    rw [hother x hxq hxr]
    exact ih _ hc.2 hnd1

/-- For an entry `r` of the chain that is not the head (`q` is its
predecessor), `StatusLed_remove` returns `Ok`, the chain afterwards is the
former chain without `r`, in the same order, `r` has `Previous`, `Configured`
and `Enabled` cleared, `q` has changed in its `Previous` link only, and no other
object has changed. -/
theorem remove_nonhead (cfg : BuildConfig) (s : Store) (l1 : List Nat) (q r : Nat)
    (l2 : List Nat) (fuel : Nat)
    (hdrv : cfg.STATUS_LED_IO_DEINIT = true → s.ledDriver ≠ none)
    (hc : LedChain s.heap s.lastLed (l1 ++ q :: r :: l2))
    (hnd : (l1 ++ q :: r :: l2).Nodup) (hf : l1.length + 1 ≤ fuel) :
    ∃ evs,
      StatusLed_remove cfg fuel s (some r) =
        .ok (StatusLed_Status_Ok, unlinkStore s q r, evs) ∧
      LedChain (unlinkStore s q r).heap (unlinkStore s q r).lastLed (l1 ++ q :: l2) ∧
      (unlinkStore s q r).heap r =
        { s.heap r with Previous := none, Configured := false, Enabled := false } ∧
      (unlinkStore s q r).heap q = { s.heap q with Previous := (s.heap r).Previous } ∧
      ∀ b, b ≠ q → b ≠ r → (unlinkStore s q r).heap b = s.heap b := by
  have hqr : q ≠ r := by
    intro h; subst h
    have := (List.nodup_append.mp hnd).2.1
    simp at this
  obtain ⟨hq, hr, hother⟩ := unlinkStore_heap s q r hqr
  obtain ⟨evs, hevs⟩ := deinitPinCall_ok cfg s (s.heap r).Config hdrv
  have hhead : some r ≠ s.lastLed := by
    intro heq
    cases l1 with
    | nil =>
      have h1 : s.lastLed = some q := hc.1
      rw [h1] at heq
      exact hqr (Option.some.inj heq).symm
    | cons y l1 =>
      have h1 : s.lastLed = some y := hc.1
      rw [h1] at heq
      have hry : r = y := Option.some.inj heq
      subst hry
      simp at hnd
  refine ⟨evs, ?_, ledChain_unlink s q r l2 l1 _ hc hnd, hr, hq, hother⟩
  simp only [StatusLed_remove, hhead, if_false]
  rw [removeLoop_walk cfg s q r l2 l1 _ fuel hc hnd hf]
  simp only [unlink, hevs]

/-! ## Removal of an entry that is not registered -/

theorem removeLoop_absent (cfg : BuildConfig) (s : Store) (e : Nat) :
    ∀ (l : List Nat) (p : Option Nat) (fuel : Nat),
      LedChain s.heap p l → e ∉ l → l.length ≤ fuel →
      removeLoop cfg s (some e) fuel p = .ok (StatusLed_Status_NotFound, s, []) := by
  intro l
  induction l with
  | nil =>
    intro p fuel hc _ _
    have hp : p = none := hc
    subst hp
    cases fuel <;> rfl
  | cons q l ih =>
    intro p fuel hc he hf
    have hp : p = some q := hc.1
    subst hp
    have hel : e ∉ l := fun h => he (List.mem_cons_of_mem q h)
    cases fuel with
    | zero => simp at hf
    | succ f =>
      have hne : some e ≠ (s.heap q).Previous := by
        intro heq
        cases l with
        | nil =>
          have h1 : (s.heap q).Previous = none := hc.2
          rw [h1] at heq
          cases heq
        | cons y l =>
          have h1 : (s.heap q).Previous = some y := hc.2.1
          rw [h1] at heq
          have : e = y := Option.some.inj heq
          subst this
          exact hel (List.mem_cons_self e l)
      have hlen : l.length ≤ f := by simpa using hf
      simp only [removeLoop, hne, if_false]
      exact ih _ f hc.2 hel hlen

theorem removeFixedLoop_absent (e : Nat) (leds : List StatusLed)
    (he : ∀ led, leds[e]? = some led → led.Configured = false) :
    ∀ (len k : Nat), k + len ≤ leds.length →
      removeFixedLoop (some e) len k leds = .ok (StatusLed_Status_NotFound, leds) := by
  intro len
  induction len with
  | zero => intro k _; rfl
  | succ n ih =>
    intro k hk
    have hlt : k < leds.length := by omega
    have hget : leds[k]? = some (leds[k]) := List.getElem?_eq_getElem hlt
    have hno : ¬ (some e = some k ∧ (leds[k]).Configured = true) := by
      rintro ⟨hek, hcfg⟩
      have hek1 : e = k := Option.some.inj hek
      subst hek1
      rw [he _ hget] at hcfg
      cases hcfg
    simp only [removeFixedLoop, hget, hno, if_false]
    exact ih (k + 1) (by omega)

/-- C11: in linked mode, for an acyclic chain `l` and a non-null entry `e` that
is not in it, and in fixed mode, for a non-null entry `k` that is not a
`Configured` slot of the array, `StatusLed_remove` returns
`StatusLed_Status_NotFound`, makes no driver call, and leaves the store
(registry and every object, the entry included) as it was. -/
theorem C11_remove_not_found (cfg : BuildConfig) (fuel : Nat) (s : Store) (l : List Nat)
    (e : Nat) (fs : ArrayStore) (k : Nat)
    (hc : LedChain s.heap s.lastLed l) (he : e ∉ l) (hf : l.length ≤ fuel)
    (hfs : ∀ led, fs.leds[k]? = some led → led.Configured = false) :
    StatusLed_remove cfg fuel s (some e) = .ok (StatusLed_Status_NotFound, s, []) ∧
    StatusLed_remove_fixed fs (some k) = .ok (StatusLed_Status_NotFound, fs, []) := by
  constructor
  · have hhead : some e ≠ s.lastLed := by
      intro heq
      cases l with
      | nil =>
        have h1 : s.lastLed = none := hc
        rw [h1] at heq
        cases heq
      | cons y l =>
        have h1 : s.lastLed = some y := hc.1
        rw [h1] at heq
        have : e = y := Option.some.inj heq
        subst this
        exact he (List.mem_cons_self e l)
    simp only [StatusLed_remove, hhead, if_false]
    exact removeLoop_absent cfg s e l _ fuel hc he hf
  · have hlen : 0 + fs.leds.length % 2 ^ 8 ≤ fs.leds.length := by
      have := Nat.mod_le fs.leds.length (2 ^ 8)
      omega
    simp only [StatusLed_remove_fixed,
      removeFixedLoop_absent k fs.leds hfs (fs.leds.length % 2 ^ 8) 0 hlen]

/-- C11 at concrete stores: the unregistered address 3 in the chain `1 → 2`, and
the free slot 1 of `fixedStore`. -/
theorem C11_remove_not_found_witness :
    StatusLed_remove (demoConfig true true true) 2 chainStore (some 3) =
      .ok (StatusLed_Status_NotFound, chainStore, []) ∧
    StatusLed_remove_fixed fixedStore (some 1) =
      .ok (StatusLed_Status_NotFound, fixedStore, []) :=
  C11_remove_not_found (demoConfig true true true) 2 chainStore [1, 2] 3 fixedStore 1
    ⟨rfl, rfl, rfl⟩ (by decide) (by decide)
    (fun led h => by
      simp [fixedStore] at h
      subst h
      rfl)

/-! ## `StatusLed_find` -/

/-- On a chain the loop of `StatusLed_find` ends within `l.length` iterations
and returns the first entry of the chain bound to `config`. -/
theorem findLoop_chain (s : Store) (config : Nat) :
    ∀ (l : List Nat) (p : Option Nat) (fuel : Nat),
      LedChain s.heap p l → l.length ≤ fuel →
      findLoop s config fuel p =
        .ok (l.find? (fun a => decide ((s.heap a).Config = config))) := by
  intro l
  induction l with
  | nil =>
    intro p fuel hc _
    have hp : p = none := hc
    subst hp
    cases fuel <;> rfl
  | cons q l ih =>
    intro p fuel hc hf
    have hp : p = some q := hc.1
    subst hp
    cases fuel with
    | zero => simp at hf
    | succ f =>
      have hlen : l.length ≤ f := by simpa using hf
      by_cases hq : (s.heap q).Config = config
      · simp [findLoop, hq, List.find?_cons]
      · have hq1 : ¬ config = (s.heap q).Config := fun h => hq h.symm
        simp only [findLoop, hq1, if_false, List.find?_cons, hq, decide_False]
        exact ih _ f hc.2 hlen

/-- The linked-list branch of `StatusLed_find`: on an acyclic chain `l`,
`StatusLed_find(c)` returns the first entry in traversal order (`lastLed` first,
the most recently added) whose `Config` is the reference `c`, and returns the
null sentinel if and only if no entry of the chain has `Config` equal to `c`;
the function only reads, its embedding has no store to return.  Immediately
after a successful `StatusLed_add(e, c)`, `StatusLed_find(c)` returns `e`. -/
theorem find_linked_contract (fuel : Nat) (s : Store) (l : List Nat) (c : Nat)
    (hc : LedChain s.heap s.lastLed l) (hf : l.length ≤ fuel) :
    StatusLed_find fuel s c = .ok (l.find? (fun a => decide ((s.heap a).Config = c))) ∧
    (StatusLed_find fuel s c = .ok none ↔ ∀ a ∈ l, (s.heap a).Config ≠ c) ∧
    (∀ cfg e s1 evs,
      StatusLed_add cfg s (some e) c = .ok (StatusLed_Status_Ok, s1, evs) →
      StatusLed_find (fuel + 1) s1 c = .ok (some e)) := by
  have h1 : StatusLed_find fuel s c =
      .ok (l.find? (fun a => decide ((s.heap a).Config = c))) :=
    findLoop_chain s c l _ fuel hc hf
  refine ⟨h1, ?_, ?_⟩
  · rw [h1]
    constructor
    · intro h a ha
      have h2 : l.find? (fun a => decide ((s.heap a).Config = c)) = none := by
        injection h
      have h3 := List.find?_eq_none.mp h2 a ha
      simpa using h3
    · intro h
      have h2 : l.find? (fun a => decide ((s.heap a).Config = c)) = none :=
        List.find?_eq_none.mpr (fun a ha => by simpa using h a ha)
      rw [h2]
  · intro cfg e s1 evs hadd
    simp only [StatusLed_add] at hadd
    cases hinit : initPinCall cfg s c with
    | error err => simp [hinit] at hadd
    | ok evs1 =>
      simp only [hinit] at hadd
      injection hadd with hadd
      have hs1 := (Prod.mk.inj (Prod.mk.inj hadd).2).1
      subst hs1
      simp [StatusLed_find, findLoop, StatusLed_setConfig]

/-- The linked-list branch of `StatusLed_find` at the chain `1 → 2`, searched for
pin configuration 8, and then after adding an entry with pin configuration 8. -/
theorem find_linked_contract_chainStore :
    StatusLed_find 2 chainStore 8 =
      .ok ([1, 2].find? (fun a => decide ((chainStore.heap a).Config = 8))) ∧
    (StatusLed_find 2 chainStore 8 = .ok none ↔ ∀ a ∈ [1, 2], (chainStore.heap a).Config ≠ 8) ∧
    (∀ cfg e s1 evs,
      StatusLed_add cfg chainStore (some e) 8 = .ok (StatusLed_Status_Ok, s1, evs) →
      StatusLed_find (2 + 1) s1 8 = .ok (some e)) :=
  find_linked_contract 2 chainStore [1, 2] 8 ⟨rfl, rfl, rfl⟩ (by decide)

/-- C13 fails in the fixed-array build, where `StatusLed_find` compares `Config`
on every slot of the array and never tests `Configured`.  First, in
`fixedStore` the only registered entry is slot 0, with pin configuration 7, and
slot 1 is free and zeroed: `StatusLed_find(0)` returns slot 1, not the null
sentinel, although no registered entry has `Config = 0`.  Second, in
`twinStore` both slots are registered with pin configuration 7: after
`StatusLed_remove` of slot 0, `StatusLed_find(7)` returns slot 0, which is no
longer registered, and not slot 1, the first registered entry bound to 7. -/
theorem C13_find_fixed_returns_free_slot :
    (fixedStore.leds = [demoLed, blankLed] ∧
      demoLed.Configured = true ∧ demoLed.Config = 7 ∧ blankLed.Configured = false ∧
      (∀ led ∈ fixedStore.leds, led.Configured = true → led.Config ≠ 0) ∧
      StatusLed_find_fixed fixedStore 0 = .ok (some 1)) ∧
    (∃ r fs1 evs,
      StatusLed_remove_fixed twinStore (some 0) = .ok (r, fs1, evs) ∧
      fs1.leds[0]? = some { demoLed with Configured := false, Enabled := false } ∧
      fs1.leds[1]? = some demoLed ∧ demoLed.Configured = true ∧ demoLed.Config = 7 ∧
      StatusLed_find_fixed fs1 7 = .ok (some 0)) := by
  refine ⟨⟨rfl, rfl, rfl, rfl, by decide, rfl⟩,
    ⟨1, { twinStore with
          leds := [{ demoLed with Configured := false, Enabled := false }, demoLed] }, [],
      rfl, rfl, rfl, rfl, rfl, rfl⟩⟩

theorem chainStore_remove_head (cfg : BuildConfig) :
    StatusLed_remove cfg 2 chainStore (some 1) =
      .ok (StatusLed_Status_Ok, unlinkStore chainStore 1 1, []) := by
  have hde : deinitPinCall cfg chainStore (chainStore.heap 1).Config = .ok [] := by
    unfold deinitPinCall
    cases cfg.STATUS_LED_IO_DEINIT <;> rfl
  have hrem : StatusLed_remove cfg 2 chainStore (some 1) = unlink cfg chainStore 1 (some 1) := rfl
  rw [hrem]
  simp only [unlink, hde]

/-- After the removal of a non-head entry `r` of an acyclic chain,
`StatusLed_find` does not return `r`, whatever configuration is searched. -/
theorem find_after_remove_nonhead (s : Store) (l1 : List Nat) (q r : Nat) (l2 : List Nat)
    (fuel c : Nat) (hc : LedChain s.heap s.lastLed (l1 ++ q :: r :: l2))
    (hnd : (l1 ++ q :: r :: l2).Nodup) (hf : (l1 ++ q :: l2).length ≤ fuel) :
    ∃ res, StatusLed_find fuel (unlinkStore s q r) c = .ok res ∧ res ≠ some r := by
  have hchain := ledChain_unlink s q r l2 l1 _ hc hnd
  refine ⟨_, findLoop_chain (unlinkStore s q r) c (l1 ++ q :: l2) _ fuel hchain hf, ?_⟩
  intro hres
  have hmem := List.mem_of_find?_eq_some hres
  have hnot : r ∉ l1 ++ q :: l2 := by
    intro hin
    have h1 := (List.nodup_append.mp hnd).1
    have h2 := (List.nodup_append.mp hnd).2.1
    have h3 := (List.nodup_append.mp hnd).2.2
    rcases List.mem_append.mp hin with h | h
    · exact h3 h (by simp)
    · rcases List.mem_cons.mp h with h | h
      · subst h
        simp at h2
      · have h4 := (List.nodup_cons.mp h2).2
        exact (List.nodup_cons.mp h4).1 h
  exact hnot hmem

/-- C12, evaluated in both storage modes.  Linked mode, chain `1 → 2`: the head
(address 1, pin configuration 7) is removed with result `Ok`, no other entry is
bound to 7, and `StatusLed_find(7)` still returns address 1.  Fixed mode: slot 0
(pin configuration 7) is removed, slot 1 is free, and `StatusLed_find(7)` still
returns slot 0.  The claim requires the null sentinel in both cases. -/
theorem C12_find_returns_removed_entry (cfg : BuildConfig) :
    (∃ s1 evs,
      StatusLed_remove cfg 2 chainStore (some 1) = .ok (StatusLed_Status_Ok, s1, evs) ∧
      (chainStore.heap 1).Config = 7 ∧ (chainStore.heap 2).Config ≠ 7 ∧
      (s1.heap 1).Configured = false ∧
      StatusLed_find 2 s1 7 = .ok (some 1)) ∧
    (∃ r fs1 evs,
      StatusLed_remove_fixed fixedStore (some 0) = .ok (r, fs1, evs) ∧
      fixedStore.leds[0]? = some demoLed ∧ demoLed.Config = 7 ∧
      fs1.leds[0]? = some { demoLed with Configured := false, Enabled := false } ∧
      fs1.leds[1]? = some blankLed ∧
      StatusLed_find_fixed fs1 7 = .ok (some 0)) := by
  refine ⟨⟨unlinkStore chainStore 1 1, [], chainStore_remove_head cfg, rfl, by decide, rfl, rfl⟩,
    ⟨1, { fixedStore with
          leds := [{ demoLed with Configured := false, Enabled := false }, blankLed] }, [],
      rfl, rfl, rfl, rfl, rfl, rfl⟩⟩

/-! ## Entries without a pattern -/

theorem emptyStore_add (cfg : BuildConfig) :
    StatusLed_add cfg emptyStore (some 1) 7 = .ok (StatusLed_Status_Ok, addedStore, []) := by
  have hinit : initPinCall cfg emptyStore 7 = .ok [] := by
    unfold initPinCall
    cases cfg.STATUS_LED_IO_INIT <;> rfl
  simp only [StatusLed_add, hinit]
  rfl

theorem handleBody_no_pattern (cfg : BuildConfig) (now a : Nat) (led : StatusLed) (n : Nat)
    (hE : led.Enabled = true) (hp : led.Pattern = none) (hd : led.NextBlink ≤ now) :
    handleBody cfg now a led n = .error Fault.nullDeref := by
  have h1 : now ≥ led.NextBlink := hd
  cases hR : cfg.STATUS_LED_REPEAT <;> simp [handleBody, isDue, hE, h1, hR, hp, blink]

/-- C14, evaluated at the state `StatusLed_add` produces: after adding an entry
to the empty registry (driver installed) the entry is enabled, has no pattern
and has `NextBlink = 0`, and `StatusLed_handle` at any timestamp and with any
build configuration reads `pLed->Pattern->...` through the null pattern instead
of completing with a result. -/
theorem C14_handle_faults_without_pattern (cfg : BuildConfig) (fuel now : Nat) :
    ∃ s1 evs,
      StatusLed_add cfg emptyStore (some 1) 7 = .ok (StatusLed_Status_Ok, s1, evs) ∧
      (s1.heap 1).Enabled = true ∧ (s1.heap 1).Pattern = none ∧ (s1.heap 1).NextBlink = 0 ∧
      StatusLed_handle cfg (fuel + 1) now s1 = .error Fault.nullDeref := by
  refine ⟨addedStore, [], emptyStore_add cfg, rfl, rfl, rfl, ?_⟩
  have hb : handleBody cfg now 1 (addedStore.heap 1) 0 = .error Fault.nullDeref :=
    handleBody_no_pattern cfg now 1 _ 0 rfl rfl (Nat.zero_le now)
  have hd : addedStore.ledDriver = some { initPin := false, deinitPin := false } := rfl
  have hl : addedStore.lastLed = some 1 := rfl
  simp only [StatusLed_handle, hd, hl, handleLoop, hb]

/-! ## `StatusLed_reset` and `StatusLed_setPattern` -/

theorem singleStore_scan_frozen (cfg : BuildConfig) (now : Nat) (led : StatusLed)
    (p : StatusLed_Pattern) (hR : cfg.STATUS_LED_REPEAT = true) (hp : led.Pattern = some p)
    (h : p.Len ≤ led.PatternIndex) :
    scanHeap cfg now [1] (singleStore led).heap 1 = led ∧
    scanEvents cfg now [1] (singleStore led).heap = [] := by
  have hheap : (singleStore led).heap 1 = led := rfl
  constructor
  · simp [scanHeap, hheap, stepLed_frozen cfg now 1 led p hR hp h]
  · simp [scanEvents, hheap, stepLed_frozen cfg now 1 led p hR hp h]

/-- C15, evaluated: `StatusLed_reset` and `StatusLed_setPattern` leave
`PatternIndex` as it is (only `State` and `NextBlink`, and the pattern, are
assigned).  For the completed one-shot entry `frozenLed` (`PatternIndex = Len =
2`) the reset gives `State = On`, `NextBlink = 0` and still `PatternIndex = 2`,
and with `STATUS_LED_REPEAT` compiled in the next `StatusLed_handle` call, at
any timestamp, makes no call and leaves the entry as it is: no transition is
produced, where the claim requires `PatternIndex = 0` and new transitions. -/
theorem C15_reset_keeps_pattern_index (fuel now : Nat) :
    (∀ led, (StatusLed_reset led).PatternIndex = led.PatternIndex) ∧
    (∀ led pat, (StatusLed_setPattern led pat).PatternIndex = led.PatternIndex) ∧
    frozenLed.PatternIndex = demoPattern.Len ∧
    (StatusLed_reset frozenLed).State = StatusLed_LedState_On ∧
    (StatusLed_reset frozenLed).NextBlink = 0 ∧
    (StatusLed_reset frozenLed).PatternIndex = 2 ∧
    ∃ s1,
      StatusLed_handle (demoConfig true false false) (fuel + 1) now
          (singleStore (StatusLed_reset frozenLed)) = .ok (1000, s1, []) ∧
      s1.heap 1 = StatusLed_reset frozenLed := by
  refine ⟨fun _ => rfl, fun _ _ => rfl, rfl, rfl, rfl, rfl, ?_⟩
  have hreg : Registry (demoConfig true false false) (singleStore (StatusLed_reset frozenLed)) [1] :=
    singleStore_registry _ _ rfl
      (fun _ => ⟨demoPattern, rfl, by decide, by decide, by decide⟩)
  have h1 := handle_registry (demoConfig true false false) (fuel + 1) now
    (singleStore (StatusLed_reset frozenLed)) [1] _ rfl hreg (by simp)
  obtain ⟨hh, he⟩ := singleStore_scan_frozen (demoConfig true false false) now
    (StatusLed_reset frozenLed) demoPattern rfl rfl (by decide)
  rw [he] at h1
  exact ⟨_, h1, hh⟩

/-! ## Result code of a removal in fixed mode -/

theorem removeFixedLoop_found (k : Nat) (leds : List StatusLed) (led : StatusLed)
    (hk : leds[k]? = some led) (hcfg : led.Configured = true) :
    ∀ (len j : Nat), j ≤ k → k < j + len → j + len ≤ leds.length →
      removeFixedLoop (some k) len j leds =
        .ok (1, leds.set k { led with Configured := false, Enabled := false }) := by
  intro len
  induction len with
  | zero => intro j h1 h2 _; omega
  | succ n ih =>
    intro j h1 h2 h3
    have hlt : j < leds.length := by omega
    have hget : leds[j]? = some (leds[j]) := List.getElem?_eq_getElem hlt
    by_cases hjk : j = k
    · subst hjk
      have hled : leds[j] = led := by
        rw [hget] at hk
        exact Option.some.inj hk
      simp [removeFixedLoop, hget, hled, hcfg]
    · have hno : ¬ (some k = some j ∧ (leds[j]).Configured = true) := by
        rintro ⟨hkj, -⟩
        exact hjk (Option.some.inj hkj).symm
      simp only [removeFixedLoop, hget, hno, if_false]
      exact ih (j + 1) (by omega) (by omega) (by omega)

/-- In fixed mode, with at most 255 slots, the removal of any `Configured` slot
returns 1 and clears `Configured` and `Enabled` of that slot only. -/
theorem remove_fixed_registered (fs : ArrayStore) (k : Nat) (led : StatusLed)
    (hlen : fs.leds.length < 2 ^ 8) (hk : fs.leds[k]? = some led)
    (hcfg : led.Configured = true) :
    StatusLed_remove_fixed fs (some k) =
      .ok (1, { fs with leds := fs.leds.set k { led with Configured := false, Enabled := false } },
           []) := by
  have hmod : fs.leds.length % 2 ^ 8 = fs.leds.length := Nat.mod_eq_of_lt hlen
  have hkl : k < fs.leds.length := by
    by_contra hge
    rw [List.getElem?_eq_none (by omega)] at hk
    cases hk
  simp only [StatusLed_remove_fixed, hmod,
    removeFixedLoop_found k fs.leds led hk hcfg fs.leds.length 0 (Nat.zero_le k) (by omega)
      (by omega)]

/-- C16, evaluated in both storage modes.  Linked mode: the removal of the
registered head of the chain `1 → 2` returns `StatusLed_Status_Ok` (0).  Fixed
mode: the removal of the registered slot 0 of `fixedStore` clears the slot and
returns 1, which is `StatusLed_Status_NoSpace` and not `StatusLed_Status_Ok`. -/
theorem C16_fixed_remove_returns_one (cfg : BuildConfig) :
    (∃ s1 evs,
      StatusLed_remove cfg 2 chainStore (some 1) = .ok (StatusLed_Status_Ok, s1, evs)) ∧
    (∃ r fs1 evs,
      fixedStore.leds[0]? = some demoLed ∧ demoLed.Configured = true ∧
      StatusLed_remove_fixed fixedStore (some 0) = .ok (r, fs1, evs) ∧
      fs1.leds[0]? = some { demoLed with Configured := false, Enabled := false } ∧
      r = 1 ∧ r = StatusLed_Status_NoSpace ∧ r ≠ StatusLed_Status_Ok) := by
  refine ⟨⟨_, _, chainStore_remove_head cfg⟩,
    ⟨1, { fixedStore with
          leds := [{ demoLed with Configured := false, Enabled := false }, blankLed] }, [],
      rfl, rfl, rfl, rfl, rfl, rfl, by decide⟩⟩

/-! ## Direction of the index advance -/

theorem blinked_index (cfg : BuildConfig) (now a : Nat) (p : StatusLed_Pattern)
    (c : StatusLed_Cycle) (led : StatusLed) (hi : led.PatternIndex < p.Len)
    (h8 : p.Len < 2 ^ 8) :
    (blinked cfg now a p c led).1.PatternIndex =
      (if led.State = true then
        (if led.PatternIndex + 1 = p.Len ∧
            (cfg.STATUS_LED_REPEAT = false ∨ led.Repeat = true) then 0
         else led.PatternIndex + 1)
       else led.PatternIndex) := by
  have hmod1 : (led.PatternIndex + 1) % 256 = led.PatternIndex + 1 :=
    Nat.mod_eq_of_lt (by omega)
  cases hS : led.State
  · simp [blinked, advanceIndex, hS]
  · by_cases hlast : led.PatternIndex + 1 = p.Len
    · have h1 : p.Len ≤ led.PatternIndex + 1 := by omega
      by_cases hrep : cfg.STATUS_LED_REPEAT = false ∨ led.Repeat = true
      · have hb : (!cfg.STATUS_LED_REPEAT || led.Repeat) = true := by
          rcases hrep with hr | hr <;> simp [hr]
        rw [if_pos rfl, if_pos ⟨hlast, hrep⟩]
        simp [blinked, advanceIndex, hS, hmod1, h1, hb]
      · have hb : (!cfg.STATUS_LED_REPEAT || led.Repeat) = false := by
          push_neg at hrep
          simp [hrep.1, hrep.2]
        rw [if_pos rfl, if_neg (fun hc => hrep hc.2)]
        simp [blinked, advanceIndex, hS, hmod1, h1, hb]
    · have h1 : ¬ p.Len ≤ led.PatternIndex + 1 := by omega
      rw [if_pos rfl, if_neg (fun hc => hlast hc.1)]
      simp [blinked, advanceIndex, hS, hmod1, h1]

theorem demoStore_two_polls (cfg : BuildConfig) :
    ∃ s1 tr1 s2 tr2,
      StatusLed_handle cfg 1 0 demoStore = .ok (cfg.STATUS_LED_IDLE_TIME, s1, tr1) ∧
      s1.heap 1 = { demoLed with NextBlink := 200, State := StatusLed_LedState_Off } ∧
      StatusLed_handle cfg 1 200 s1 = .ok (cfg.STATUS_LED_IDLE_TIME, s2, tr2) ∧
      s2.heap 1 = { demoLed with NextBlink := 300, PatternIndex := 1 } := by
  have h1 := handle_registry cfg 1 0 demoStore [1] _ rfl (demoStore_registry cfg) (by simp)
  have hr := registry_scan cfg 0 demoStore [1] (demoStore_registry cfg)
  have h2 := handle_registry cfg 1 200 _ [1] _ rfl hr (by simp)
  refine ⟨_, _, _, _, h1, ?_, h2, ?_⟩
  · simp [scanHeap, demoStore, demo_first_poll]
  · simp [scanHeap, demoStore, demo_first_poll, demo_second_poll]

/-- C17, as stated, fails at the fresh entry of `demoStore`: the toggle at
`now = 0` results in the inactive state (`StatusLed_LedState_Off`) and leaves
`PatternIndex` at 0, and the toggle at `now = 200` results in the active state
(`StatusLed_LedState_On`) and takes `PatternIndex` from 0 to 1. -/
theorem C17_index_advance_counterexample :
    ∃ r1 s1 tr1 r2 s2 tr2,
      (demoStore.heap 1).PatternIndex = 0 ∧
      StatusLed_handle (demoConfig false false false) 1 0 demoStore = .ok (r1, s1, tr1) ∧
      (s1.heap 1).State = StatusLed_LedState_Off ∧ (s1.heap 1).PatternIndex = 0 ∧
      StatusLed_handle (demoConfig false false false) 1 200 s1 = .ok (r2, s2, tr2) ∧
      (s2.heap 1).State = StatusLed_LedState_On ∧ (s2.heap 1).PatternIndex = 1 := by
  obtain ⟨s1, tr1, s2, tr2, h1, hs1, h2, hs2⟩ := demoStore_two_polls (demoConfig false false false)
  refine ⟨_, s1, tr1, _, s2, tr2, rfl, h1, ?_, ?_, h2, ?_, ?_⟩
  · rw [hs1]
  · rw [hs1]; rfl
  · rw [hs2]; rfl
  · rw [hs2]

/-- C17, amended: in a well-formed registry with the driver installed, for a
registered, enabled entry that is due with `PatternIndex < Len`, one call of
`StatusLed_handle` toggles `State`; when the resulting state is inactive
(`StatusLed_LedState_Off`) `PatternIndex` is unchanged, and when the resulting
state is active (`StatusLed_LedState_On`) `PatternIndex` has been incremented
(and, when the increment reached `Len` on a repeating entry, cleared to 0). -/
theorem C17_index_advance (cfg : BuildConfig) (fuel now : Nat) (s : Store) (l : List Nat)
    (d : StatusLed_Driver) (a : Nat) (p : StatusLed_Pattern)
    (hd : s.ledDriver = some d) (h : Registry cfg s l) (hf : l.length ≤ fuel) (ha : a ∈ l)
    (hE : (s.heap a).Enabled = true) (hp : (s.heap a).Pattern = some p)
    (hi : (s.heap a).PatternIndex < p.Len) (hdue : (s.heap a).NextBlink ≤ now) :
    ∃ r s1 tr,
      StatusLed_handle cfg fuel now s = .ok (r, s1, tr) ∧
      (s1.heap a).State = (!(s.heap a).State) ∧
      ((s1.heap a).State = StatusLed_LedState_Off →
        (s1.heap a).PatternIndex = (s.heap a).PatternIndex) ∧
      ((s1.heap a).State = StatusLed_LedState_On →
        (s1.heap a).PatternIndex =
          (if (s.heap a).PatternIndex + 1 = p.Len ∧
              (cfg.STATUS_LED_REPEAT = false ∨ (s.heap a).Repeat = true) then 0
           else (s.heap a).PatternIndex + 1)) := by
  have h1 := handle_registry cfg fuel now s l d hd h hf
  obtain ⟨p1, hp1, hlen, h8, -⟩ := h.entries a ha hE
  have hpp : p1 = p := by rw [hp] at hp1; exact (Option.some.inj hp1).symm
  subst hpp
  have hlt : (s.heap a).PatternIndex < p1.Cycles.length := by omega
  have hc : p1.Cycles[(s.heap a).PatternIndex]? = some (p1.Cycles[(s.heap a).PatternIndex]) :=
    List.getElem?_eq_getElem hlt
  have hstep := stepLed_due cfg now a (s.heap a) p1 _ hE hdue hp (fun _ => hi) hc
  have hfr := blinked_frame cfg now a p1 (p1.Cycles[(s.heap a).PatternIndex]) (s.heap a)
  have hidx := blinked_index cfg now a p1 (p1.Cycles[(s.heap a).PatternIndex]) (s.heap a) hi h8
  have hst := hfr.2.2.2.2.2.2.2.1
  have hheap : scanHeap cfg now l s.heap a =
      (blinked cfg now a p1 (p1.Cycles[(s.heap a).PatternIndex]) (s.heap a)).1 := by
    rw [scan_entry cfg now a l s.heap ha, hstep]
  refine ⟨_, _, _, h1, ?_, ?_, ?_⟩
  · show (scanHeap cfg now l s.heap a).State = _
    rw [hheap]; exact hst
  · show (scanHeap cfg now l s.heap a).State = _ → (scanHeap cfg now l s.heap a).PatternIndex = _
    rw [hheap, hst, hidx]
    intro hoff
    have hold : (s.heap a).State = false := by
      cases hS : (s.heap a).State
      · rfl
      · rw [hS] at hoff; cases hoff
    simp [hold]
  · show (scanHeap cfg now l s.heap a).State = _ → (scanHeap cfg now l s.heap a).PatternIndex = _
    rw [hheap, hst, hidx]
    intro hon
    have hold : (s.heap a).State = true := by
      cases hS : (s.heap a).State
      · rw [hS] at hon; cases hon
      · rfl
    simp [hold]

/-- C17 (amended) at the entry of `singleStore waitingLed`, which is in state
`Off` with `PatternIndex = 0` and due at `now = 200`. -/
theorem C17_index_advance_witness :
    ∃ r s1 tr,
      StatusLed_handle (demoConfig false false false) 1 200 (singleStore waitingLed) =
        .ok (r, s1, tr) ∧
      (s1.heap 1).State = (!((singleStore waitingLed).heap 1).State) ∧
      ((s1.heap 1).State = StatusLed_LedState_Off →
        (s1.heap 1).PatternIndex = ((singleStore waitingLed).heap 1).PatternIndex) ∧
      ((s1.heap 1).State = StatusLed_LedState_On →
        (s1.heap 1).PatternIndex =
          (if ((singleStore waitingLed).heap 1).PatternIndex + 1 = demoPattern.Len ∧
              ((demoConfig false false false).STATUS_LED_REPEAT = false ∨
                ((singleStore waitingLed).heap 1).Repeat = true) then 0
           else ((singleStore waitingLed).heap 1).PatternIndex + 1)) :=
  C17_index_advance (demoConfig false false false) 1 200 (singleStore waitingLed) [1]
    { initPin := false, deinitPin := false } 1 demoPattern rfl
    (singleStore_registry _ waitingLed rfl (demoLed_variant_ok _ waitingLed rfl rfl))
    (by decide) (by decide) rfl rfl (by decide) (by decide)

/-! ## Range of the pattern index -/

/-- The setters other than `StatusLed_setPattern` change neither the pattern nor
the pattern index. -/
theorem index_range_setters (led : StatusLed) (v : Nat) :
    (StatusLed_reset led).PatternIndex = led.PatternIndex ∧
    (StatusLed_reset led).Pattern = led.Pattern ∧
    (StatusLed_setEnabled led v).PatternIndex = led.PatternIndex ∧
    (StatusLed_setEnabled led v).Pattern = led.Pattern ∧
    (StatusLed_setRepeat led v).PatternIndex = led.PatternIndex ∧
    (StatusLed_setRepeat led v).Pattern = led.Pattern :=
  ⟨rfl, rfl, rfl, rfl, rfl, rfl⟩

theorem handleBody_past_array (cfg : BuildConfig) (now a : Nat) (led : StatusLed) (n : Nat)
    (p : StatusLed_Pattern) (hE : led.Enabled = true) (hd : led.NextBlink ≤ now)
    (hR : cfg.STATUS_LED_REPEAT = false) (hp : led.Pattern = some p)
    (hc : p.Cycles[led.PatternIndex]? = none) :
    handleBody cfg now a led n = .error Fault.outOfBounds := by
  have h1 : now ≥ led.NextBlink := hd
  simp [handleBody, isDue, hE, h1, hR, hp, blink, hc]

theorem singleStore_handle_skip (cfg : BuildConfig) (fuel now : Nat) (led : StatusLed)
    (hprev : led.Previous = none) (hbody : handleBody cfg now 1 led 0 = .ok (led, 0, [])) :
    ∃ s1, StatusLed_handle cfg (fuel + 1) now (singleStore led) =
        .ok (cfg.STATUS_LED_IDLE_TIME, s1, []) ∧ s1.heap 1 = led := by
  have hd : (singleStore led).ledDriver = some { initPin := false, deinitPin := false } := rfl
  have hl : (singleStore led).lastLed = some 1 := rfl
  have hh : (singleStore led).heap 1 = led := rfl
  refine ⟨{ singleStore led with heap := Function.update (singleStore led).heap 1 led }, ?_, ?_⟩
  · simp only [StatusLed_handle, hd, hl, handleLoop, hh, hbody, hprev]
    cases fuel <;> simp [handleLoop]
  · simp

theorem singleStore_handle_fault (cfg : BuildConfig) (fuel now : Nat) (led : StatusLed)
    (e : Fault) (hbody : handleBody cfg now 1 led 0 = .error e) :
    StatusLed_handle cfg (fuel + 1) now (singleStore led) = .error e := by
  have hd : (singleStore led).ledDriver = some { initPin := false, deinitPin := false } := rfl
  have hl : (singleStore led).lastLed = some 1 := rfl
  have hh : (singleStore led).heap 1 = led := rfl
  simp only [StatusLed_handle, hd, hl, handleLoop, hh, hbody]

/-- C18, evaluated: the entry `midLed` is in the middle of a three-cycle pattern
(`PatternIndex = 2 <= Len = 3`).  `StatusLed_setPattern` with a pattern of
length 1 assigns the pattern and resets `State` and `NextBlink` but leaves
`PatternIndex = 2`, which is above the new `Len = 1`: the range invariant is
broken by a public operation.  Afterwards `StatusLed_handle` never plays the new
pattern: with `STATUS_LED_REPEAT` the entry is skipped at every timestamp, and
without it the call reads `Cycles[2]` past the one-cycle array. -/
theorem C18_setPattern_breaks_index_range (fuel now : Nat) :
    midLed.Pattern = some longPattern ∧ midLed.PatternIndex ≤ longPattern.Len ∧
    1 ≤ shortPattern.Len ∧
    (StatusLed_setPattern midLed (some shortPattern)).Pattern = some shortPattern ∧
    (StatusLed_setPattern midLed (some shortPattern)).PatternIndex = 2 ∧
    ¬ ((StatusLed_setPattern midLed (some shortPattern)).PatternIndex ≤ shortPattern.Len) ∧
    (∃ s1,
      StatusLed_handle (demoConfig true false false) (fuel + 1) now
          (singleStore (StatusLed_setPattern midLed (some shortPattern))) = .ok (1000, s1, []) ∧
      s1.heap 1 = StatusLed_setPattern midLed (some shortPattern)) ∧
    StatusLed_handle (demoConfig false false false) (fuel + 1) now
        (singleStore (StatusLed_setPattern midLed (some shortPattern))) =
      .error Fault.outOfBounds := by
  refine ⟨rfl, by decide, by decide, rfl, rfl, by decide, ?_, ?_⟩
  · exact singleStore_handle_skip (demoConfig true false false) fuel now _ rfl
      (handleBody_frozen (demoConfig true false false) now 1 _ 0 shortPattern rfl rfl
        (by decide))
  · apply singleStore_handle_fault
    exact handleBody_past_array (demoConfig false false false) now 1 _ 0 shortPattern rfl
      (Nat.zero_le now) rfl rfl rfl

/-! ## Acyclicity of the chain -/

theorem add_eq_addStore (cfg : BuildConfig) (s : Store) (a config : Nat) (evs : List Event)
    (hinit : initPinCall cfg s config = .ok evs) :
    StatusLed_add cfg s (some a) config = .ok (StatusLed_Status_Ok, addStore s a config, evs) := by
  simp only [StatusLed_add, hinit]
  rfl

theorem initPinCall_installed (cfg : BuildConfig) (s : Store) (config : Nat)
    (hd : s.ledDriver = some { initPin := false, deinitPin := false }) :
    initPinCall cfg s config = .ok [] := by
  unfold initPinCall
  cases cfg.STATUS_LED_IO_INIT <;> simp [hd]

theorem deinitPinCall_installed (cfg : BuildConfig) (s : Store) (config : Nat)
    (hd : s.ledDriver = some { initPin := false, deinitPin := false }) :
    deinitPinCall cfg s config = .ok [] := by
  unfold deinitPinCall
  cases cfg.STATUS_LED_IO_DEINIT <;> simp [hd]

theorem findLoop_self_loop (s : Store) (a config : Nat) (h : (s.heap a).Previous = some a)
    (hc : (s.heap a).Config ≠ config) :
    ∀ fuel, findLoop s config fuel (some a) = .error Fault.outOfFuel := by
  intro fuel
  induction fuel with
  | zero => rfl
  | succ f ih =>
    have hc1 : ¬ config = (s.heap a).Config := fun h1 => hc h1.symm
    simp [findLoop, hc1, h, ih]

theorem removeLoop_self_loop (cfg : BuildConfig) (s : Store) (a e : Nat)
    (h : (s.heap a).Previous = some a) (he : e ≠ a) :
    ∀ fuel, removeLoop cfg s (some e) fuel (some a) = .error Fault.outOfFuel := by
  intro fuel
  induction fuel with
  | zero => rfl
  | succ f ih =>
    have hne : ¬ some e = some a := fun heq => he (Option.some.inj heq)
    simp only [removeLoop, h, hne, if_false]
    exact ih

/-- The loop of `StatusLed_handle` over an entry that is its own `Previous` and
that can be processed never reaches the null pointer. -/
theorem handleLoop_self_loop (cfg : BuildConfig) (now a : Nat) :
    ∀ (fuel : Nat) (heap : Nat → StatusLed) (tr : List Event),
      (heap a).Previous = some a → EntryOK cfg (heap a) →
      handleLoop cfg now fuel (some a) heap 0 tr = .error Fault.outOfFuel := by
  intro fuel
  induction fuel with
  | zero => intro heap tr _ _; rfl
  | succ f ih =>
    intro heap tr hprev hok
    have hbody := handleBody_eq_stepLed cfg now a (heap a) hok
    have hfr := (stepLed_frame cfg now a (heap a)).1
    simp only [handleLoop, hbody, hfr, hprev]
    apply ih
    · rw [Function.update_same, hfr, hprev]
    · rw [Function.update_same]
      exact stepLed_entryOK cfg now a (heap a) hok

/-- C19, evaluated at the sequence add(e); remove(e); add(e) on the empty
registry, with `e` the entry at address 1: all three calls return `Ok`, so the
second `StatusLed_add` is applied to an entry that was successfully removed.
The removal of the head leaves `lastLed` pointing to `e`, so the second add
sets `e->Previous = e`: the chain from `lastLed` is a cycle, and the traversal
loops of `StatusLed_find`, `StatusLed_remove` and (once a pattern is set)
`StatusLed_handle` do not end within any number of iterations. -/
theorem C19_readd_makes_cycle (cfg : BuildConfig) (now : Nat) :
    ∃ s1 s2 s3,
      StatusLed_add cfg emptyStore (some 1) 7 = .ok (StatusLed_Status_Ok, s1, []) ∧
      (∀ fuel, StatusLed_remove cfg fuel s1 (some 1) = .ok (StatusLed_Status_Ok, s2, [])) ∧
      (s2.heap 1).Configured = false ∧
      StatusLed_add cfg s2 (some 1) 7 = .ok (StatusLed_Status_Ok, s3, []) ∧
      s3.lastLed = some 1 ∧ (s3.heap 1).Previous = some 1 ∧
      (∀ fuel, traversal fuel s3.heap s3.lastLed = .error Fault.outOfFuel) ∧
      (∀ fuel, StatusLed_find fuel s3 8 = .error Fault.outOfFuel) ∧
      (∀ fuel, StatusLed_remove cfg fuel s3 (some 2) = .error Fault.outOfFuel) ∧
      (∀ fuel, StatusLed_handle cfg fuel now
          (s3.onLed 1 (fun led => StatusLed_setPattern led (some demoPattern))) =
        .error Fault.outOfFuel) := by
  have hprev : ((addStore (unlinkStore (addStore emptyStore 1 7) 1 1) 1 7).heap 1).Previous =
      some 1 := rfl
  refine ⟨addStore emptyStore 1 7, unlinkStore (addStore emptyStore 1 7) 1 1,
    addStore (unlinkStore (addStore emptyStore 1 7) 1 1) 1 7, ?_, ?_, rfl, ?_, rfl, hprev,
    ?_, ?_, ?_, ?_⟩
  · exact add_eq_addStore cfg _ 1 7 [] (initPinCall_installed cfg _ 7 rfl)
  · intro fuel
    have hrem : StatusLed_remove cfg fuel (addStore emptyStore 1 7) (some 1) =
        unlink cfg (addStore emptyStore 1 7) 1 (some 1) := rfl
    rw [hrem]
    simp only [unlink, deinitPinCall_installed cfg (addStore emptyStore 1 7) _ rfl]
  · exact add_eq_addStore cfg _ 1 7 [] (initPinCall_installed cfg _ 7 rfl)
  · exact traversal_self_loop _ 1 hprev
  · intro fuel
    exact findLoop_self_loop _ 1 8 hprev (by decide) fuel
  · intro fuel
    have hne : ¬ some 2 = (addStore (unlinkStore (addStore emptyStore 1 7) 1 1) 1 7).lastLed := by
      decide
    simp only [StatusLed_remove, hne, if_false]
    exact removeLoop_self_loop cfg _ 1 2 hprev (by decide) fuel
  · intro fuel
    have hd : ((addStore (unlinkStore (addStore emptyStore 1 7) 1 1) 1 7).onLed 1
        (fun led => StatusLed_setPattern led (some demoPattern))).ledDriver =
        some { initPin := false, deinitPin := false } := rfl
    have hl : ((addStore (unlinkStore (addStore emptyStore 1 7) 1 1) 1 7).onLed 1
        (fun led => StatusLed_setPattern led (some demoPattern))).lastLed = some 1 := rfl
    have hloop := handleLoop_self_loop cfg now 1 fuel
      ((addStore (unlinkStore (addStore emptyStore 1 7) 1 1) 1 7).onLed 1
        (fun led => StatusLed_setPattern led (some demoPattern))).heap [] rfl
      (demoLed_variant_ok cfg _ rfl rfl)
    simp only [StatusLed_handle, hd, hl, hloop]

/-! ## Deadline arithmetic -/

/-- One call of `StatusLed_handle` seen from an entry that is due. -/
theorem handle_due (cfg : BuildConfig) (fuel now : Nat) (s : Store) (l : List Nat)
    (d : StatusLed_Driver) (a : Nat) (p : StatusLed_Pattern) (c : StatusLed_Cycle)
    (hd : s.ledDriver = some d) (h : Registry cfg s l) (hf : l.length ≤ fuel) (ha : a ∈ l)
    (hE : (s.heap a).Enabled = true) (hp : (s.heap a).Pattern = some p)
    (hi : (s.heap a).PatternIndex < p.Len) (hc : p.Cycles[(s.heap a).PatternIndex]? = some c)
    (hdue : (s.heap a).NextBlink ≤ now) :
    StatusLed_handle cfg fuel now s =
      .ok (cfg.STATUS_LED_IDLE_TIME, { s with heap := scanHeap cfg now l s.heap },
           scanEvents cfg now l s.heap) ∧
    scanHeap cfg now l s.heap a = (blinked cfg now a p c (s.heap a)).1 ∧
    writesOf a (scanEvents cfg now l s.heap) =
      [Event.writePin a (s.heap a).Config (xor (!(s.heap a).State) (s.heap a).ActiveState)] := by
  have hstep := stepLed_due cfg now a (s.heap a) p c hE hdue hp (fun _ => hi) hc
  refine ⟨handle_registry cfg fuel now s l d hd h hf, ?_, ?_⟩
  · rw [scan_entry cfg now a l s.heap ha, hstep]
  · simp only [writesOf, eventsOf_scanEvents cfg now a s.heap l h.nodup, ha, if_true, hstep]
    simp [blinked, List.filter_cons, ledWritePin, Event.isWrite, advanceIndex_writes]

/-- One call of `StatusLed_handle` seen from an entry whose deadline is still
ahead. -/
theorem handle_early (cfg : BuildConfig) (fuel now : Nat) (s : Store) (l : List Nat)
    (d : StatusLed_Driver) (a : Nat)
    (hd : s.ledDriver = some d) (h : Registry cfg s l) (hf : l.length ≤ fuel) (ha : a ∈ l)
    (hnow : now < (s.heap a).NextBlink) :
    StatusLed_handle cfg fuel now s =
      .ok (cfg.STATUS_LED_IDLE_TIME, { s with heap := scanHeap cfg now l s.heap },
           scanEvents cfg now l s.heap) ∧
    scanHeap cfg now l s.heap a = s.heap a ∧
    eventsOf a (scanEvents cfg now l s.heap) = [] := by
  refine ⟨handle_registry cfg fuel now s l d hd h hf, ?_, ?_⟩
  · simp [scan_entry cfg now a l s.heap ha, stepLed_early cfg now a (s.heap a) hnow]
  · simp [eventsOf_scanEvents cfg now a s.heap l h.nodup, ha,
      stepLed_early cfg now a (s.heap a) hnow]

/-- The test of lines 71-75 on an entry with a pattern: the plain comparison of
the timestamps and, with `STATUS_LED_REPEAT`, the index guard. -/
theorem isDue_eq (cfg : BuildConfig) (t : Nat) (led : StatusLed) (p : StatusLed_Pattern)
    (hp : led.Pattern = some p) :
    isDue cfg t led =
      .ok (decide (led.NextBlink ≤ t ∧
        (cfg.STATUS_LED_REPEAT = true → led.PatternIndex < p.Len))) := by
  by_cases hd : t ≥ led.NextBlink
  · have hd1 : led.NextBlink ≤ t := hd
    cases hR : cfg.STATUS_LED_REPEAT <;> simp [isDue, hd1, hR, hp]
  · have hd1 : ¬ led.NextBlink ≤ t := hd
    simp [isDue, hd1]

/-- C20: in a well-formed registry with the driver installed, take a
registered, enabled entry that is due at `now < 2^32` with `PatternIndex < Len`
and the duration `dur = Cycles[PatternIndex].Times[State] < 2^16`.  One call of
`StatusLed_handle` sets `NextBlink = (now + dur) % 2^32`, and the test applied
to the entry at any later poll is the plain comparison `NextBlink <= t` (with
the index guard of `STATUS_LED_REPEAT`).  When `now + dur < 2^32` and `dur > 0`
the new deadline is later than `now` and a second call at the same timestamp
leaves the entry alone and makes no call for it.  When `now + dur >= 2^32` the
new deadline is smaller than `now`, so the comparison holds again at the same
timestamp, and a second call at that timestamp toggles the entry again whenever
its index is still below `Len`, which is always so for a repeating entry. -/
theorem C20_deadline_arithmetic (cfg : BuildConfig) (fuel now : Nat) (s : Store) (l : List Nat)
    (d : StatusLed_Driver) (a : Nat) (p : StatusLed_Pattern) (c : StatusLed_Cycle)
    (hd : s.ledDriver = some d) (h : Registry cfg s l) (hf : l.length ≤ fuel) (ha : a ∈ l)
    (hE : (s.heap a).Enabled = true) (hp : (s.heap a).Pattern = some p)
    (hi : (s.heap a).PatternIndex < p.Len) (hc : p.Cycles[(s.heap a).PatternIndex]? = some c)
    (hdue : (s.heap a).NextBlink ≤ now) (hnow : now < 2 ^ 32)
    (hdur : c.Times (s.heap a).State < 2 ^ 16) :
    ∃ r s1 tr,
      StatusLed_handle cfg fuel now s = .ok (r, s1, tr) ∧
      (s1.heap a).NextBlink = (now + c.Times (s.heap a).State) % 2 ^ 32 ∧
      (∀ t, isDue cfg t (s1.heap a) =
        .ok (decide ((s1.heap a).NextBlink ≤ t ∧
          (cfg.STATUS_LED_REPEAT = true → (s1.heap a).PatternIndex < p.Len)))) ∧
      (now + c.Times (s.heap a).State < 2 ^ 32 → 0 < c.Times (s.heap a).State →
        now < (s1.heap a).NextBlink ∧
        ∃ r2 s2 tr2,
          StatusLed_handle cfg fuel now s1 = .ok (r2, s2, tr2) ∧
          s2.heap a = s1.heap a ∧ eventsOf a tr2 = []) ∧
      (2 ^ 32 ≤ now + c.Times (s.heap a).State →
        (s1.heap a).NextBlink < now ∧
        ((s1.heap a).PatternIndex < p.Len →
          ∃ r2 s2 tr2,
            StatusLed_handle cfg fuel now s1 = .ok (r2, s2, tr2) ∧
            (s2.heap a).State = (s.heap a).State ∧ (writesOf a tr2).length = 1)) ∧
      (cfg.STATUS_LED_REPEAT = false ∨ (s.heap a).Repeat = true →
        (s1.heap a).PatternIndex < p.Len) := by
  obtain ⟨h1, hheap, -⟩ := handle_due cfg fuel now s l d a p c hd h hf ha hE hp hi hc hdue
  obtain ⟨p1, hp1, hlen, h8, -⟩ := h.entries a ha hE
  have hpp : p1 = p := by rw [hp] at hp1; exact (Option.some.inj hp1).symm
  subst hpp
  have hfr := blinked_frame cfg now a p1 c (s.heap a)
  have hidx := blinked_index cfg now a p1 c (s.heap a) hi h8
  have hreg := registry_scan cfg now s l h
  have hE1 : (scanHeap cfg now l s.heap a).Enabled = true := by
    rw [hheap, hfr.2.2.1]; exact hE
  have hP1 : (scanHeap cfg now l s.heap a).Pattern = some p1 := by
    rw [hheap, hfr.2.1]; exact hp
  have hN1 : (scanHeap cfg now l s.heap a).NextBlink =
      (now + c.Times (s.heap a).State) % 2 ^ 32 := by
    rw [hheap]; exact hfr.2.2.2.2.2.2.2.2.1
  have hS1 : (scanHeap cfg now l s.heap a).State = (!(s.heap a).State) := by
    rw [hheap]; exact hfr.2.2.2.2.2.2.2.1
  refine ⟨_, { s with heap := scanHeap cfg now l s.heap }, _, h1, hN1, ?_, ?_, ?_, ?_⟩
  · intro t
    exact isDue_eq cfg t _ p1 hP1
  · intro hno hpos
    have hlater : now < (scanHeap cfg now l s.heap a).NextBlink := by
      rw [hN1, Nat.mod_eq_of_lt hno]; omega
    obtain ⟨h2, hsame, hev⟩ := handle_early cfg fuel now
      { s with heap := scanHeap cfg now l s.heap } l d a hd hreg hf ha hlater
    exact ⟨hlater, _, _, _, h2, hsame, hev⟩
  · intro hover
    have hsmall : (scanHeap cfg now l s.heap a).NextBlink < now := by
      rw [hN1]; omega
    refine ⟨hsmall, ?_⟩
    intro hi1
    have hlt : (scanHeap cfg now l s.heap a).PatternIndex < p1.Cycles.length := by
      have : (scanHeap cfg now l s.heap a).PatternIndex < p1.Len := hi1
      omega
    have hc1 := List.getElem?_eq_getElem hlt
    obtain ⟨h2, hheap2, hw⟩ := handle_due cfg fuel now
      { s with heap := scanHeap cfg now l s.heap } l d a p1 _ hd hreg hf ha hE1 hP1 hi1 hc1
      (Nat.le_of_lt hsmall)
    refine ⟨_, _, _, h2, ?_, ?_⟩
    · show (scanHeap cfg now l (scanHeap cfg now l s.heap) a).State = _
      have hfr2 := blinked_frame cfg now a p1
        (p1.Cycles[(scanHeap cfg now l s.heap a).PatternIndex]) (scanHeap cfg now l s.heap a)
      have hh2 : scanHeap cfg now l (scanHeap cfg now l s.heap) a =
          (blinked cfg now a p1 (p1.Cycles[(scanHeap cfg now l s.heap a).PatternIndex])
            (scanHeap cfg now l s.heap a)).1 := hheap2
      rw [hh2, hfr2.2.2.2.2.2.2.2.1, hS1]
      simp
    · have hw1 : writesOf a (scanEvents cfg now l (scanHeap cfg now l s.heap)) = _ := hw
      rw [hw1]
      rfl
  · intro hrep
    show (scanHeap cfg now l s.heap a).PatternIndex < p1.Len
    rw [hheap, hidx]
    split_ifs with h1 h2
    · omega
    · have : ¬ ((s.heap a).PatternIndex + 1 = p1.Len) := fun hx => h2 ⟨hx, hrep⟩
      omega
    · exact hi

/-- C20 at the fresh entry of `demoStore`, polled at the last timestamp before
the `uint32_t` clock wraps, `now = 2^32 - 1`, with the duration 200. -/
theorem C20_deadline_arithmetic_witness :
    ∃ r s1 tr,
      StatusLed_handle (demoConfig false false false) 1 4294967295 demoStore = .ok (r, s1, tr) ∧
      (s1.heap 1).NextBlink =
        (4294967295 + ({ Off := 200, On := 100 } : StatusLed_Cycle).Times
          (demoStore.heap 1).State) % 2 ^ 32 ∧
      (∀ t, isDue (demoConfig false false false) t (s1.heap 1) =
        .ok (decide ((s1.heap 1).NextBlink ≤ t ∧
          ((demoConfig false false false).STATUS_LED_REPEAT = true →
            (s1.heap 1).PatternIndex < demoPattern.Len)))) ∧
      (4294967295 + ({ Off := 200, On := 100 } : StatusLed_Cycle).Times
          (demoStore.heap 1).State < 2 ^ 32 →
        0 < ({ Off := 200, On := 100 } : StatusLed_Cycle).Times (demoStore.heap 1).State →
        4294967295 < (s1.heap 1).NextBlink ∧
        ∃ r2 s2 tr2,
          StatusLed_handle (demoConfig false false false) 1 4294967295 s1 = .ok (r2, s2, tr2) ∧
          s2.heap 1 = s1.heap 1 ∧ eventsOf 1 tr2 = []) ∧
      (2 ^ 32 ≤ 4294967295 + ({ Off := 200, On := 100 } : StatusLed_Cycle).Times
          (demoStore.heap 1).State →
        (s1.heap 1).NextBlink < 4294967295 ∧
        ((s1.heap 1).PatternIndex < demoPattern.Len →
          ∃ r2 s2 tr2,
            StatusLed_handle (demoConfig false false false) 1 4294967295 s1 =
              .ok (r2, s2, tr2) ∧
            (s2.heap 1).State = (demoStore.heap 1).State ∧ (writesOf 1 tr2).length = 1)) ∧
      ((demoConfig false false false).STATUS_LED_REPEAT = false ∨
          (demoStore.heap 1).Repeat = true →
        (s1.heap 1).PatternIndex < demoPattern.Len) :=
  C20_deadline_arithmetic (demoConfig false false false) 1 4294967295 demoStore [1]
    { initPin := false, deinitPin := false } 1 demoPattern { Off := 200, On := 100 } rfl
    (demoStore_registry _) (by decide) (by decide) rfl rfl (by decide) rfl (by decide)
    (by decide) (by decide)
